import Mathlib

set_option maxRecDepth 100000
set_option maxHeartbeats 2000000

/-!
Verification of the markdown export / Google-Docs upload engine.

The development shallowly embeds the two source modules:

* `GdocExport` models `gdocs-export/gdoc2md.py`: the document tree
  (tabs, paragraphs, text runs, tables), paragraph/table rendering to
  markdown, tab flattening, and the three conversion modes of
  `convert_document_to_markdown`.
* `GdocUpload` models `skills/gdocs-upload/upload.py`: the doc-id marker
  writer, the markdown list preprocessor, the styling-request generator
  of `copy_doc_content_to_existing` (stages 1, 2 and 2b), and the
  batch/retry loop of `apply_document_styles`.

Python dictionaries with `.get` defaults are modelled as structures with
`Option` fields (`none` = key absent); Python truthiness of strings and
options is modelled explicitly.  `str.strip`/`\s` are modelled over the
six ASCII whitespace characters.  Regular expressions used by the source
are modelled as concrete matchers whose backtracking behaviour on the
specific patterns is reproduced exactly (see the comments at the
matchers).  Recursions that consume a non-structural amount of input are
defined with an explicit fuel equal to the input length so that all
definitions compute by kernel reduction.
-/

namespace GdocExport

/-- The six ASCII whitespace characters: model of Python `str.strip`
whitespace and of `\s` on ASCII input. -/
def pws (c : Char) : Bool :=
  c.toNat = 32 || c.toNat = 9 || c.toNat = 10 || c.toNat = 13 ||
  c.toNat = 11 || c.toNat = 12

/-- Python `str.strip()` on a character list. -/
def pyStripL (l : List Char) : List Char :=
  ((l.dropWhile pws).reverse.dropWhile pws).reverse

/-- Python `str.rstrip()` on a character list. -/
def pyRstripL (l : List Char) : List Char :=
  (l.reverse.dropWhile pws).reverse

/-- Python `str.strip()`. -/
def pyStrip (s : String) : String := ⟨pyStripL s.toList⟩

/-- Python `str.rstrip()`. -/
def pyRstrip (s : String) : String := ⟨pyRstripL s.toList⟩

/-- Python `''.join` over a list of strings. -/
def strConcat (l : List String) : String := l.foldl (· ++ ·) ""

/-- Python `s * n` for strings. -/
def strRepeat (s : String) : Nat → String
  | 0 => ""
  | n + 1 => s ++ strRepeat s n

/-- Literal matcher: consume the literal `p` from the front of `s`,
returning the remainder on success. -/
def leadLit : List Char → List Char → Option (List Char)
  | [], s => some s
  | _ :: _, [] => none
  | p :: ps, c :: cs => if c = p then leadLit ps cs else none

/-- Python `str.startswith`. -/
def pyStartsWith (s p : String) : Bool := (leadLit p.toList s.toList).isSome

/-- Python `x or default` for an optional string (`None` and `""` are falsy). -/
def pyOr (o : Option String) (d : String) : String :=
  match o with
  | some s => if s = "" then d else s
  | none => d

/-- Text style of a text run (`textStyle` dict of the export API surface):
the fields read by `gdoc2md.py`.  `link = some url` models
`{'link': {'url': url}}`; a `link` dict without a `url` key is `none`
(`get_link` returns `None` for it). -/
structure TextStyle where
  bold : Bool := false
  italic : Bool := false
  underline : Bool := false
  link : Option String := none
deriving DecidableEq, Repr

/-- A paragraph element: either a text run or some other element kind
(for which `extract_text_runs` returns `''`). -/
inductive PElem where
  | textRun (content : String) (style : TextStyle)
  | otherElem
deriving DecidableEq, Repr

/-- The `bullet` dict of a paragraph. -/
structure Bullet where
  listId : Option String := none
  nestingLevel : Nat := 0
deriving DecidableEq, Repr

/-- Paragraph payload: `paragraphStyle.namedStyleType` (with its
`'NORMAL_TEXT'` get-default applied), the optional `bullet` dict, and
the element list. -/
structure Para where
  namedStyleType : String := "NORMAL_TEXT"
  bullet : Option Bullet := none
  elements : List PElem := []
deriving DecidableEq, Repr

/-- A structural element of a document body.  A table is its
`tableRows`: rows of cells, each cell a list of content elements
(`cell['content']`). -/
inductive SElem where
  | paragraph (p : Para)
  | table (tableRows : List (List (List SElem)))
  | sectionBreak
  | otherElem
deriving Repr

/-- Model of `extract_text_runs`. -/
def extract_text_runs (e : PElem) : String :=
  match e with
  | .textRun content _ => content
  | .otherElem => ""

/-- Model of `get_text_style` (the `{}` default for non-runs is the all-default style). -/
def get_text_style (e : PElem) : TextStyle :=
  match e with
  | .textRun _ st => st
  | .otherElem => {}

/-- The run-formatting chain of `convert_paragraph_to_markdown`
(lines 113-137): bold/italic, then underline, then link outermost.
`if link:` is false for `None` and for the empty string. -/
def format_run (text : String) (st : TextStyle) : String :=
  let f1 :=
    if st.bold && st.italic then "***" ++ text ++ "***"
    else if st.bold then "**" ++ text ++ "**"
    else if st.italic then "*" ++ text ++ "*"
    else text
  let f2 := if st.underline then "<u>" ++ f1 ++ "</u>" else f1
  match st.link with
  | some url => if url = "" then f2 else "[" ++ f2 ++ "](" ++ url ++ ")"
  | none => f2

/-- Model of `level_map.get(named_style, 1)`. -/
def heading_level_of (s : String) : Nat :=
  if s = "HEADING_1" then 1
  else if s = "HEADING_2" then 2
  else if s = "HEADING_3" then 3
  else if s = "HEADING_4" then 4
  else if s = "HEADING_5" then 5
  else if s = "HEADING_6" then 6
  else 1

/-- The `text_parts` loop of `convert_paragraph_to_markdown`: runs with
empty text are skipped, the rest are formatted. -/
def para_text_parts (elems : List PElem) : List String :=
  elems.foldr
    (fun e acc =>
      let t := extract_text_runs e
      if t = "" then acc else format_run t (get_text_style e) :: acc)
    []

/-- Model of `convert_paragraph_to_markdown` on a structural element. -/
def convert_paragraph_to_markdown (el : SElem) : String :=
  match el with
  | .paragraph p =>
    let text := pyRstrip (strConcat (para_text_parts p.elements))
    if pyStartsWith p.namedStyleType "HEADING_" then
      strRepeat "#" (heading_level_of p.namedStyleType) ++ " " ++ text ++ "\n"
    else
      match p.bullet with
      | some b =>
        strRepeat "  " b.nestingLevel ++
          (if b.nestingLevel = 0 then "- " else "  - ") ++ text ++ "\n"
      | none => if pyStrip text = "" then "\n" else text ++ "\n"
  | _ => ""

/-- Python `str.replace` with a one-character pattern (characterwise
substitution, which is exactly `str.replace`'s behaviour for a
single-character needle). -/
def replaceChar (c : Char) (rep : List Char) (l : List Char) : List Char :=
  l.foldr (fun x acc => (if x = c then rep else [x]) ++ acc) []

/-- Model of `escape_cell` of `convert_table_to_markdown`: `|` → `\|` first,
then newlines → single space. -/
def escape_cell (s : String) : String :=
  ⟨replaceChar '\n' [' '] (replaceChar '|' ['\\', '|'] s.toList)⟩

/-- Inner loop of the cell-text extraction: the paragraph elements of a
cell content item (`content.get('paragraph', {}).get('elements', [])`). -/
def cell_content_elems (el : SElem) : List PElem :=
  match el with
  | .paragraph p => p.elements
  | _ => []

/-- The per-cell text of `convert_table_to_markdown`: every run's text
(including empty ones) is collected, space-joined, then stripped. -/
def cell_text (cell : List SElem) : String :=
  pyStrip (String.intercalate " "
    ((cell.foldr (fun el acc => cell_content_elems el ++ acc) []).map
      extract_text_runs))

/-- The count `num_cols = max(len(row) for row in table_rows)` (the rows are
nonempty whenever this is used; `foldr max 0` agrees with Python `max`
there). -/
def num_cols_of (rows : List (List String)) : Nat :=
  (rows.map List.length).foldr max 0

/-- The `while len(row) < num_cols: row.append('')` padding. -/
def padTo (n : Nat) (r : List String) : List String :=
  r ++ List.replicate (n - r.length) ""

/-- One emitted table line: `'| ' + ' | '.join(escape_cell(c) for c in row) + ' |'`. -/
def table_line (row : List String) : String :=
  "| " ++ String.intercalate " | " (row.map escape_cell) ++ " |"

/-- Model of `table_rows`: the extracted grid of cell texts. -/
def table_grid (rows : List (List (List SElem))) : List (List String) :=
  rows.map (fun row => row.map cell_text)

/-- Model of `convert_table_to_markdown`. -/
def convert_table_to_markdown (t : SElem) : String :=
  match t with
  | .table rows =>
    if rows.isEmpty then ""
    else
      match table_grid rows with
      | [] => ""
      | header :: rest =>
        let n := num_cols_of (header :: rest)
        if n = 0 then ""
        else
          let sep := "| " ++ String.intercalate " | " (List.replicate n "---") ++ " |"
          let all := table_line (padTo n header) :: sep ::
            rest.map (fun r => table_line (padTo n r))
          String.intercalate "\n" all ++ "\n\n"
  | _ => ""

mutual
/-- A document tab: optional `tabProperties.title`, optional
`documentTab` body content, and child tabs. -/
inductive Tab where
  | mk (title : Option String) (content : Option (List SElem)) (children : TabForest)

/-- A list of tabs (mutual with `Tab` so that recursion over the tab
tree is structural). -/
inductive TabForest where
  | nil
  | cons (t : Tab) (rest : TabForest)
end

/-- A document: its `tabs` and its main `body.content`. -/
structure GDoc where
  tabs : TabForest
  body : List SElem

/-- One entry of `get_all_tabs` for a tab that has a `documentTab`. -/
def tab_entry (title : Option String) (content : Option (List SElem)) :
    List (String × List SElem) :=
  match content with
  | some c => [(title.getD "Untitled Tab", c)]
  | none => []

mutual
/-- Model of `get_all_tabs`: the source visits a tab, then its direct children,
then recurses on each child's children
(`get_all_tabs({'tabs': child_tab['childTabs']})`). -/
def get_all_tabs : TabForest → List (String × List SElem)
  | .nil => []
  | .cons (.mk title content children) rest =>
    tab_entry title content ++ get_all_tabs_child children ++ get_all_tabs rest

/-- The inner `for child_tab in tab['childTabs']` loop of `get_all_tabs`. -/
def get_all_tabs_child : TabForest → List (String × List SElem)
  | .nil => []
  | .cons (.mk ctitle ccontent gch) rest =>
    tab_entry ctitle ccontent ++ get_all_tabs gch ++ get_all_tabs_child rest
end

/-- One match attempt of the title-cleaning pattern
`\*\*?([^*]+)\*\*?` at the head of `s`.  Returns
`(rest after the match, captured group)`.  The greedy/backtracking
behaviour of the pattern collapses to: one or two leading stars (two
preferred and never rescued by one, since a failed two-star attempt
leaves a star in front of the body), a maximal nonempty star-free body,
then one or two closing stars (two preferred). -/
def md_star_match (s : List Char) : Option (List Char × List Char) :=
  match s with
  | '*' :: '*' :: u =>
    let body := u.takeWhile (fun c => c ≠ '*')
    let v := u.dropWhile (fun c => c ≠ '*')
    if body.isEmpty then none
    else
      match v with
      | '*' :: '*' :: w => some (w, body)
      | '*' :: w => some (w, body)
      | _ => none
  | '*' :: u =>
    let body := u.takeWhile (fun c => c ≠ '*')
    let v := u.dropWhile (fun c => c ≠ '*')
    if body.isEmpty then none
    else
      match v with
      | '*' :: '*' :: w => some (w, body)
      | '*' :: w => some (w, body)
      | _ => none
  | _ => none

/-- Model of `re.sub(r'\*\*?([^*]+)\*\*?', r'\1', s)`: left-to-right scan
replacing each match by its captured group, fueled by input length. -/
def md_star_sub_go : Nat → List Char → List Char
  | 0, s => s
  | _ + 1, [] => []
  | fuel + 1, c :: t =>
    match md_star_match (c :: t) with
    | some (rest, body) => body ++ md_star_sub_go fuel rest
    | none => c :: md_star_sub_go fuel t

/-- The bold/italic-marker stripping applied to section titles. -/
def md_star_sub (s : String) : String := ⟨md_star_sub_go s.toList.length s.toList⟩

/-- The rendering of one body element inside the document-level loops
(`paragraph` / `table` / `sectionBreak` branches; anything else
contributes nothing). -/
def render_element (el : SElem) : String :=
  match el with
  | .paragraph _ => convert_paragraph_to_markdown el
  | .table _ => convert_table_to_markdown el
  | .sectionBreak => "\n---\n\n"
  | .otherElem => ""

/-- State of the split-by-sections scan: produced sections, the
fragments of the in-progress section, its title (`None` = unset), and
the `has_content_before_first_heading` flag. -/
structure SplitState where
  sections : List (String × String)
  cur : List String
  curTitle : Option String
  seenFlag : Bool

/-- The `text_parts` collection used for a heading's raw title (runs
with empty text are skipped). -/
def heading_text_parts (elems : List PElem) : List String :=
  elems.foldr
    (fun e acc =>
      let t := extract_text_runs e
      if t = "" then acc else t :: acc)
    []

/-- A heading's cleaned section title:
`re.sub(r'\*\*?([^*]+)\*\*?', r'\1', raw_title).strip() or 'Untitled Section'`. -/
def heading_section_title (p : Para) : String :=
  let raw := pyStrip (strConcat (heading_text_parts p.elements))
  let t := pyStrip (md_star_sub raw)
  if t = "" then "Untitled Section" else t

/-- Processing of one element in split-by-sections mode
(lines 351-397 of `gdoc2md.py`). -/
def process_section_element (st : SplitState) (el : SElem) : SplitState :=
  match el with
  | .paragraph p =>
    if p.namedStyleType = "HEADING_1" then
      let sections1 :=
        if st.cur.isEmpty then st.sections
        else st.sections ++ [(pyOr st.curTitle "Introduction", strConcat st.cur)]
      { sections := sections1
        cur := [convert_paragraph_to_markdown el]
        curTitle := some (heading_section_title p)
        seenFlag := true }
    else
      { st with
        cur := st.cur ++ [convert_paragraph_to_markdown el]
        curTitle :=
          if !st.seenFlag && st.curTitle.isNone then some "Introduction"
          else st.curTitle }
  | .table _ => { st with cur := st.cur ++ [convert_table_to_markdown el] }
  | .sectionBreak =>
    let sections1 :=
      if st.cur.isEmpty then st.sections
      else st.sections ++ [(pyOr st.curTitle "Untitled Section", strConcat st.cur)]
    { sections := sections1, cur := [], curTitle := some "Untitled Section",
      seenFlag := st.seenFlag }
  | .otherElem => st

/-- The tab-title seeding loop of split-by-sections mode
(lines 340-347): a separate pass over `all_content` that runs *before*
any element is processed. -/
def seed_tab_titles (n : Nat) (st : SplitState)
    (contents : List (String × List SElem)) : SplitState :=
  contents.foldl
    (fun st tc =>
      if n > 1 && !tc.2.isEmpty then
        { sections :=
            if st.cur.isEmpty then st.sections
            else st.sections ++ [(pyOr st.curTitle "Introduction", strConcat st.cur)]
          cur := []
          curTitle := some tc.1
          seenFlag := st.seenFlag }
      else st)
    st

/-- Model of `convert_document_to_markdown`. -/
def convert_document_to_markdown (doc : GDoc)
    (split_by_sections split_by_tabs : Bool) : List (String × String) :=
  let all_tabs := get_all_tabs doc.tabs
  let all_content0 :=
    (if doc.body.isEmpty then [] else [("Main Document", doc.body)]) ++
      all_tabs.foldr (fun tc acc => if tc.2.isEmpty then acc else tc :: acc) []
  let all_content :=
    if all_content0.isEmpty then [("Main Document", doc.body)] else all_content0
  if split_by_tabs then
    let tab_sections :=
      all_content.foldr
        (fun tc acc =>
          let md := strConcat (tc.2.map render_element)
          if pyStrip md = "" then acc else (tc.1, md) :: acc)
        []
    if tab_sections.isEmpty then [("", "")] else tab_sections
  else if !split_by_sections then
    let parts :=
      all_content.map
        (fun tc =>
          (if all_content.length > 1 then "\n# " ++ tc.1 ++ "\n\n" else "") ++
            strConcat (tc.2.map render_element))
    [("", strConcat parts)]
  else
    let st0 : SplitState :=
      { sections := [], cur := [], curTitle := none, seenFlag := false }
    let st1 := seed_tab_titles all_content.length st0 all_content
    let st2 :=
      all_content.foldl (fun st tc => tc.2.foldl process_section_element st) st1
    let sections :=
      if st2.cur.isEmpty then st2.sections
      else st2.sections ++ [(pyOr st2.curTitle "Untitled Section", strConcat st2.cur)]
    if sections.isEmpty then [("Introduction", "")] else sections

/-- A plain (unstyled) heading-1 paragraph with one text run. -/
def h1_para (s : String) : SElem :=
  .paragraph { namedStyleType := "HEADING_1", elements := [PElem.textRun s {}] }

/-- A plain normal-text paragraph with one text run. -/
def text_para (s : String) : SElem :=
  .paragraph { elements := [PElem.textRun s {}] }

/-- A table cell holding one empty paragraph. -/
def empty_cell : List SElem := [.paragraph { elements := [] }]

/-- A bulleted paragraph with text `item` at a given nesting level. -/
def bullet_item (n : Nat) : SElem :=
  .paragraph
    { bullet := some { nestingLevel := n }
      elements := [PElem.textRun "item" {}] }

/-- One tab holding an H1 paragraph `Notes`, a bold+italic run `hi`,
and a 2-by-2 table of empty cells. -/
def c1_doc : GDoc :=
  ⟨.cons (.mk (some "T")
      (some [h1_para "Notes",
        .paragraph { elements := [PElem.textRun "hi" { bold := true, italic := true }] },
        .table [[empty_cell, empty_cell], [empty_cell, empty_cell]]])
      .nil) .nil,
    []⟩

/-- Two content-bearing tabs, one normal paragraph each. -/
def c3_doc : GDoc :=
  ⟨.cons (.mk (some "T1") (some [text_para "x1"]) .nil)
      (.cons (.mk (some "T2") (some [text_para "x2"]) .nil) .nil),
    []⟩

/-- A single tab: `[H1 "Intro text", H1 "A", para "x", H1 "B", para "y"]`. -/
def c4_doc : GDoc :=
  ⟨.cons (.mk (some "T")
      (some [h1_para "Intro text", h1_para "A", text_para "x",
        h1_para "B", text_para "y"]) .nil) .nil,
    []⟩

/-- Specification-side emphasis wrapper: bold+italic, bold, italic. -/
def spec_emphasis (b i : Bool) (t : String) : String :=
  if b && i then "***" ++ t ++ "***"
  else if b then "**" ++ t ++ "**"
  else if i then "*" ++ t ++ "*"
  else t

/-- Specification-side underline wrapper. -/
def spec_underline_wrap (u : Bool) (t : String) : String :=
  if u then "<u>" ++ t ++ "</u>" else t

/-- Specification-side link wrapper (outermost; inactive for a missing
or empty url). -/
def spec_link_wrap (l : Option String) (t : String) : String :=
  match l with
  | some url => if url = "" then t else "[" ++ t ++ "](" ++ url ++ ")"
  | none => t

end GdocExport

namespace GdocUpload

open GdocExport (pws strConcat strRepeat leadLit)

/-! ### `preprocess_markdown_for_lists` -/

/-- ASCII digit (`\d` of the list-number pattern on ASCII input). -/
def isDigitCh (c : Char) : Bool := 48 ≤ c.toNat && c.toNat ≤ 57

/-- Model of `re.match(r'^[\-\*\+]\s', line)`. -/
def starts_bullet_item (s : String) : Bool :=
  match s.toList with
  | c :: d :: _ => (c = '-' || c = '*' || c = '+') && pws d
  | _ => false

/-- Model of `re.match(r'^\d+\.\s', line)` (the greedy digit run is exact: a
shorter run is followed by a digit, which is not `.`). -/
def starts_numbered_item (s : String) : Bool :=
  let l := s.toList
  !(l.takeWhile isDigitCh).isEmpty &&
    (match l.dropWhile isDigitCh with
     | '.' :: w :: _ => pws w
     | _ => false)

/-- A line recognized as starting a list item (either pattern). -/
def is_list_item_line (s : String) : Bool :=
  starts_bullet_item s || starts_numbered_item s

/-- Whether `result[-1].strip()` is falsy: the line is empty or whitespace-only. -/
def is_blank_line (s : String) : Bool := s.toList.all pws

/-- Python `content.split('\n')` on a character list. -/
def split_nl : List Char → List (List Char)
  | [] => [[]]
  | c :: t =>
    let r := split_nl t
    if c = '\n' then [] :: r
    else
      match r with
      | h :: t2 => (c :: h) :: t2
      | [] => [[c]]

/-- Python `content.split('\n')`. -/
def split_lines (s : String) : List String :=
  (split_nl s.toList).map (fun l => ⟨l⟩)

/-- The accumulation loop of `preprocess_markdown_for_lists`: a blank
line is inserted before a list-item line whose predecessor in the
output is non-blank and not itself a list item. -/
def preprocess_go : List String → List String → List String
  | acc, [] => acc
  | acc, line :: rest =>
    let acc1 :=
      if is_list_item_line line &&
          (match acc.getLast? with
           | some prev => !is_blank_line prev && !is_list_item_line prev
           | none => false) then
        acc ++ [""]
      else acc
    preprocess_go (acc1 ++ [line]) rest

/-- The processed line list of `preprocess_markdown_for_lists`. -/
def preprocess_lines (content : String) : List String :=
  preprocess_go [] (split_lines content)

/-- Model of `preprocess_markdown_for_lists`. -/
def preprocess_markdown_for_lists (content : String) : String :=
  String.intercalate "\n" (preprocess_lines content)

/-! ### The batch/retry loop of `apply_document_styles` -/

/-- Python `pat in s` (substring containment). -/
def sub_in (p : List Char) : List Char → Bool
  | [] => p.isEmpty
  | c :: t => (leadLit p (c :: t)).isSome || sub_in p t

/-- The rate-limit test of `apply_document_styles`:
`'Quota exceeded' in str(e) or '429' in str(e)`. -/
def is_rate_limit_msg (e : String) : Bool :=
  sub_in "Quota exceeded".toList e.toList || sub_in "429".toList e.toList

/-- Observable actions of the batch loop: a `batchUpdate` attempt with a
given batch, or a sleep (duration in tenths of a second: the cooldown is
60s = 600, the inter-batch delay 1.5s = 15). -/
inductive BatchEv (α : Type) where
  | attempt (batch : List α)
  | sleep (tenths : Nat)
deriving DecidableEq, Repr

/-- Execution of one batch (the `try`/`except` body of
`apply_document_styles`): the backend oracle gives the outcome of the
`k`-th `batchUpdate` call overall (`none` = success, `some msg` =
exception with message `msg`).  Returns the outcome, the next call
counter, and the emitted events.  On a rate-limit message the batch is
retried once after the cooldown, with the retry unprotected; any other
exception propagates immediately. -/
def exec_batch (oracle : Nat → Option String) (n : Nat) (batch : List α) :
    Except String Unit × Nat × List (BatchEv α) :=
  match oracle n with
  | none => (.ok (), n + 1, [.attempt batch])
  | some e =>
    if is_rate_limit_msg e then
      match oracle (n + 1) with
      | none => (.ok (), n + 2, [.attempt batch, .sleep 600, .attempt batch])
      | some e2 => (.error e2, n + 2, [.attempt batch, .sleep 600, .attempt batch])
    else (.error e, n + 1, [.attempt batch])

/-- The batch loop: batches run sequentially, with the 1.5s delay after a
successful batch when further requests remain; a raised exception aborts
the loop and propagates. -/
def run_batches (oracle : Nat → Option String) (n : Nat) :
    List (List α) → Except String (Nat × List (BatchEv α))
  | [] => .ok (n, [])
  | b :: rest =>
    match exec_batch oracle n b with
    | (.ok _, n1, evs) =>
      match run_batches oracle n1 rest with
      | .ok (n2, evs2) =>
        .ok (n2, evs ++ (if rest.isEmpty then [] else [.sleep 15]) ++ evs2)
      | .error e => .error e
    | (.error e, _, _) => .error e

/-- Model of `requests[i:i+batch_size]` slicing: `k`-sized chunks (capacity
countdown keeps the recursion structural). -/
def chunks_go (k : Nat) : List α → Nat → List α → List (List α)
  | acc, _, [] => if acc.isEmpty then [] else [acc.reverse]
  | acc, c, x :: xs =>
    if c ≤ 1 then (x :: acc).reverse :: chunks_go k [] k xs
    else chunks_go k (x :: acc) (c - 1) xs

/-- The list `requests` split into `k`-sized batches. -/
def chunks (k : Nat) (l : List α) : List (List α) := chunks_go k [] k l

/-- The whole batching stage of `apply_document_styles`: batches of 30,
starting with backend call 0. -/
def apply_style_batches (oracle : Nat → Option String) (reqs : List α) :
    Except String (Nat × List (BatchEv α)) :=
  run_batches oracle 0 (chunks 30 reqs)

/-! ### `copy_doc_content_to_existing`, stages 1 (bulk text), 2 (styles)
and 2b (bullets).  Stage 3 (table replay) re-fetches the document and is
driven by remote offsets, so it is outside this model's scope. -/

/-- The `link` value of a destination-API text style:
`isinstance(link_data, dict)` and which of `url`/`bookmarkId`/`headingId`
are present. -/
structure ULink where
  isDict : Bool := true
  hasUrl : Bool := false
  hasBookmarkId : Bool := false
  hasHeadingId : Bool := false
deriving DecidableEq, Repr

/-- A `textStyle` dict as read by `copy_doc_content_to_existing`.
`Option Bool` fields model key presence and value; `has*` fields model
pure key presence; `hasOtherKeys` models any further keys (so that dict
truthiness is expressible). -/
structure UStyle where
  bold : Option Bool := none
  italic : Option Bool := none
  underline : Option Bool := none
  strikethrough : Option Bool := none
  hasWeightedFontFamily : Bool := false
  hasForegroundColor : Bool := false
  hasBackgroundColor : Bool := false
  hasFontSize : Bool := false
  link : Option ULink := none
  hasOtherKeys : Bool := false
deriving DecidableEq, Repr

/-- Truthiness of the style dict (`if text_style:`): some key present. -/
def UStyle.truthy (s : UStyle) : Bool :=
  s.bold.isSome || s.italic.isSome || s.underline.isSome ||
  s.strikethrough.isSome || s.hasWeightedFontFamily || s.hasForegroundColor ||
  s.hasBackgroundColor || s.hasFontSize || s.link.isSome || s.hasOtherKeys

/-- The `style_fields` list built for a run, in source order. -/
def style_fields (ts : UStyle) : List String :=
  (if ts.bold.getD false then ["bold"] else []) ++
  (if ts.italic.getD false then ["italic"] else []) ++
  (if ts.underline.getD false then ["underline"] else []) ++
  (if ts.strikethrough.getD false then ["strikethrough"] else []) ++
  (if ts.hasWeightedFontFamily then ["weightedFontFamily"] else []) ++
  (if ts.hasForegroundColor then ["foregroundColor"] else []) ++
  (if ts.hasBackgroundColor then ["backgroundColor"] else []) ++
  (if ts.hasFontSize then ["fontSize"] else []) ++
  (match ts.link with
   | some l =>
     if l.isDict && (l.hasUrl || l.hasBookmarkId || l.hasHeadingId) then ["link"]
     else []
   | none => [])

/-- The `bullet` dict of a source paragraph on the upload side. -/
structure UBullet where
  listId : Option String := none
  nestingLevel : Nat := 0
deriving DecidableEq, Repr

/-- A source body element as read by `copy_doc_content_to_existing`: a
paragraph (named style, optional bullet, and its elements, each
optionally a text run), a table (whose `rows`/`columns` counts are all
stages 1-2b look at), or anything else. -/
inductive UElem where
  | paragraph (namedStyle : String) (bullet : Option UBullet)
      (elems : List (Option (String × UStyle)))
  | table (rows cols : Nat)
  | otherElem
deriving DecidableEq, Repr

/-- A collected paragraph: `(named_style, text_runs, bullet)`. -/
structure UPara where
  namedStyle : String
  runs : List (String × UStyle)
  bullet : Option UBullet
deriving DecidableEq, Repr

/-- Sum of the run lengths of a paragraph (`para_len`). -/
def para_len (p : UPara) : Nat := (p.runs.map (fun r => r.1.length)).sum

/-- The collection loop over the source body: nested bullets get a
leading run of tab characters, empty-text runs are dropped, paragraphs
with no runs are dropped, and each table contributes a one-newline
placeholder paragraph. -/
def collect_paragraphs : List UElem → List UPara
  | [] => []
  | .paragraph ns b elems :: rest =>
    let tabRuns : List (String × UStyle) :=
      match b with
      | some bu =>
        if bu.nestingLevel > 0 then [(⟨List.replicate bu.nestingLevel '\t'⟩, {})]
        else []
      | none => []
    let runs := tabRuns ++
      elems.foldr
        (fun e acc =>
          match e with
          | some (t, st) => if t = "" then acc else (t, st) :: acc
          | none => acc)
        []
    (if runs.isEmpty then [] else [⟨ns, runs, b⟩]) ++ collect_paragraphs rest
  | .table _ _ :: rest => ⟨"NORMAL_TEXT", [("\n", {})], none⟩ :: collect_paragraphs rest
  | .otherElem :: rest => collect_paragraphs rest

/-- The single string inserted by stage 1 (`all_text`). -/
def all_text (ps : List UPara) : String :=
  strConcat (ps.map (fun p => strConcat (p.runs.map (·.1))))

/-- Python `text.endswith('\n')`. -/
def ends_nl (s : String) : Bool := s.toList.getLast? == some '\n'

/-- A mutation request emitted before table replay. -/
inductive UReq where
  | updParaStyle (startIndex endIndex : Nat) (namedStyle : String)
  | updTextStyle (startIndex endIndex : Nat) (fields : List String)
  | createBullets (startIndex endIndex : Nat) (preset : String)
deriving DecidableEq, Repr

/-- Start index of a request. -/
def UReq.startIdx : UReq → Nat
  | .updParaStyle s _ _ => s
  | .updTextStyle s _ _ => s
  | .createBullets s _ _ => s

/-- End index of a request. -/
def UReq.endIdx : UReq → Nat
  | .updParaStyle _ e _ => e
  | .updTextStyle _ e _ => e
  | .createBullets _ e _ => e

/-- The per-run `updateTextStyle` emissions of stage 2, walking the
cursor: a request is emitted only for a run of length ≥ 2 with a truthy
style yielding at least one field, and its range drops a trailing
newline. -/
def run_style_reqs : Nat → List (String × UStyle) → List UReq
  | _, [] => []
  | cur, (text, st) :: rest =>
    let tlen := text.length
    let here :=
      if tlen > 0 && st.truthy then
        let fields := style_fields st
        if !fields.isEmpty && cur + tlen - 1 > cur then
          let endIdx := if ends_nl text then cur + tlen - 1 else cur + tlen
          if endIdx > cur then [.updTextStyle cur endIdx fields] else []
        else []
      else []
    here ++ run_style_reqs (cur + tlen) rest

/-- Stage 2 (`format_requests`), walking the paragraph list from cursor
`cur`: an `updateParagraphStyle` over the full span of each non-default
named style, then the per-run text-style requests. -/
def format_requests_go : Nat → List UPara → List UReq
  | _, [] => []
  | cur, p :: rest =>
    (if p.namedStyle ≠ "" && p.namedStyle ≠ "NORMAL_TEXT" then
        [.updParaStyle cur (cur + para_len p) p.namedStyle]
      else []) ++
      run_style_reqs cur p.runs ++ format_requests_go (cur + para_len p) rest

/-- Stage 2 requests (cursor starts at 1: index 0 is reserved). -/
def format_requests (ps : List UPara) : List UReq := format_requests_go 1 ps

/-- The numbered-list glyph types. -/
def numbered_glyphs : List String :=
  ["DECIMAL", "ALPHA", "ROMAN", "ZERO_DECIMAL", "UPPER_ALPHA", "UPPER_ROMAN"]

/-- The bullet preset chosen for a bulleted paragraph: source list
definitions associate each `listId` with the `glyphType` of each of its
nesting levels (with the `''` get-default applied); a numbered preset is
used when the first level's glyph type is a numeric/alphabetic/roman
class, the unordered preset otherwise or when the id is unresolvable. -/
def bullet_preset (lists : List (String × List String)) (b : UBullet) : String :=
  let lid := b.listId.getD ""
  if lid ≠ "" then
    match (lists.find? (fun x => x.1 == lid)).map (·.2) with
    | some (g :: _) =>
      if numbered_glyphs.contains g then "NUMBERED_DECIMAL_ALPHA_ROMAN"
      else "BULLET_DISC_CIRCLE_SQUARE"
    | some [] => "BULLET_DISC_CIRCLE_SQUARE"
    | none => "BULLET_DISC_CIRCLE_SQUARE"
  else "BULLET_DISC_CIRCLE_SQUARE"

/-- Stage 2b (`bullet_requests`), a second full pass with its own cursor
(`bullet_index`), emitting one `createParagraphBullets` per bulleted
paragraph span. -/
def bullet_requests_go (lists : List (String × List String)) :
    Nat → List UPara → List UReq
  | _, [] => []
  | cur, p :: rest =>
    (match p.bullet with
     | some b => [.createBullets cur (cur + para_len p) (bullet_preset lists b)]
     | none => []) ++ bullet_requests_go lists (cur + para_len p) rest

/-- Stage 2b requests (cursor starts at 1). -/
def bullet_requests (lists : List (String × List String)) (ps : List UPara) :
    List UReq :=
  bullet_requests_go lists 1 ps

/-- All styling requests emitted before table replay. -/
def pre_table_requests (lists : List (String × List String))
    (body : List UElem) : List UReq :=
  format_requests (collect_paragraphs body) ++
    bullet_requests lists (collect_paragraphs body)

/-! ### The doc-id marker (`DOC_ID_PATTERN` and `save_doc_id_to_markdown`)

`DOC_ID_PATTERN = re.compile(r'<!--\s*google-doc-id:\s*([a-zA-Z0-9_-]+)\s*-->')`.

The matcher below reproduces the pattern's backtracking semantics at a
fixed position.  The two `\s*` runs before literals are exact maximal
runs (whitespace never starts the following literal).  For the id run:
let `R` be the maximal run of id characters.  Backtracking over
`[a-zA-Z0-9_-]+\s*-->` succeeds either with the full run `R` followed by
a (possibly empty, but then impossible, hence in fact nonempty)
whitespace run and the literal `-->`, or — when the text directly after
`R` is `>` and `R` ends in `--` with at least one id character before
them — with the id `R` minus its last two dashes, the dashes and the `>`
forming the closing `-->`.  No other split can match, because `-` is an
id character and `>` is neither an id nor a whitespace character. -/


/-- The character class `[a-zA-Z0-9_-]`. -/
def idc (c : Char) : Bool :=
  (97 ≤ c.toNat && c.toNat ≤ 122) || (65 ≤ c.toNat && c.toNat ≤ 90) ||
  (48 ≤ c.toNat && c.toNat ≤ 57) || c.toNat = 95 || c.toNat = 45

/-- The id-and-closing part of one `DOC_ID_PATTERN` attempt, applied to
the text after `<!--\s*google-doc-id:\s*`: the maximal id run, then
either the two-trailing-dashes-and-`>` backtracking case or the
whitespace-then-`-->` case. -/
def did_tail (s4 : List Char) : Option (List Char × List Char) :=
  let r := s4.takeWhile idc
  let s5 := s4.dropWhile idc
  if r.isEmpty then none
  else if 3 ≤ r.length ∧ r.drop (r.length - 2) = ['-', '-'] ∧
      s5.head? = some '>' then
    some (s5.tail, r.take (r.length - 2))
  else
    match leadLit ['-', '-', '>'] (s5.dropWhile pws) with
    | none => none
    | some rest => some (rest, r)

/-- One attempt of `DOC_ID_PATTERN` at the head of `s`: on success,
`some (rest of the input after the match, captured id)`. -/
def doc_id_match (s : List Char) : Option (List Char × List Char) :=
  match leadLit ['<', '!', '-', '-'] s with
  | none => none
  | some s1 =>
    match leadLit "google-doc-id:".toList (s1.dropWhile pws) with
    | none => none
    | some s3 => did_tail (s3.dropWhile pws)

/-- Fueled left-to-right scan of `DOC_ID_PATTERN` over the text, as
performed by `re.sub` / `re.finditer`: at each position, either the
pattern matches (yielding its capture, the scan resuming after the
match) or the single character is kept.  The fuel (instantiated with the
text length, which `doc_id_match_rest_lt` shows is always enough) keeps
the recursion structural. -/
def scan_pieces_go : Nat → List Char → List (Sum Char (List Char))
  | 0, s => s.map .inl
  | _ + 1, [] => []
  | fuel + 1, c :: t =>
    match doc_id_match (c :: t) with
    | some (rest, cap) => .inr cap :: scan_pieces_go fuel rest
    | none => .inl c :: scan_pieces_go fuel t

/-- The scan of `DOC_ID_PATTERN` over `s`. -/
def scan_pieces (s : List Char) : List (Sum Char (List Char)) :=
  scan_pieces_go s.length s

/-- Model of `DOC_ID_PATTERN.sub(repl, s)` (every match replaced by `repl`,
other characters kept). -/
def marker_sub (repl s : List Char) : List Char :=
  (scan_pieces s).foldr
    (fun p acc =>
      match p with
      | .inl c => c :: acc
      | .inr _ => repl ++ acc)
    []

/-- The captured ids of the (leftmost, non-overlapping) matches of
`DOC_ID_PATTERN` in `s`, in order. -/
def marker_ids (s : List Char) : List (List Char) :=
  (scan_pieces s).foldr
    (fun p acc =>
      match p with
      | .inl _ => acc
      | .inr cap => cap :: acc)
    []

/-- Number of marker occurrences in `s`. -/
def count_markers (s : List Char) : Nat := (marker_ids s).length

/-- Whether `DOC_ID_PATTERN.search(s)` succeeds. -/
def has_marker : List Char → Bool
  | [] => false
  | c :: t => (doc_id_match (c :: t)).isSome || has_marker t

/-- The marker comment written by `save_doc_id_to_markdown`:
`f'<!-- google-doc-id: {doc_id} -->'`. -/
def marker_text (docId : String) : String :=
  "<!-- google-doc-id: " ++ docId ++ " -->"

/-- Model of `save_doc_id_to_markdown` as a content transformation (the file
read/write around it is I/O): replace every existing marker, or prepend
the marker and a blank line. -/
def save_doc_id_to_markdown (docId content : String) : String :=
  if has_marker content.toList then
    ⟨marker_sub (marker_text docId).toList content.toList⟩
  else marker_text docId ++ "\n\n" ++ content

/-- A valid document id for the marker: nonempty, all characters in
`[a-zA-Z0-9_-]`. -/
def valid_id (l : List Char) : Prop := l ≠ [] ∧ ∀ c ∈ l, idc c = true

/-! ### Range validity of the stage-2/2b requests -/

/-- The run-filtering fold of the collection loop. -/
def filt_runs (elems : List (Option (String × UStyle))) : List (String × UStyle) :=
  elems.foldr
    (fun e acc =>
      match e with
      | some (t, st) => if t = "" then acc else (t, st) :: acc
      | none => acc)
    []

/-! ### Shape of the preprocessed line list -/

/-- The relation `InsertBlanks xs ys`: `ys` is `xs` with zero or more empty lines
inserted (each inserted line is `""`, which is blank). -/
inductive InsertBlanks : List String → List String → Prop where
  | nil : InsertBlanks [] []
  | keep (x : String) {xs ys : List String} :
      InsertBlanks xs ys → InsertBlanks (x :: xs) (x :: ys)
  | pad {xs ys : List String} : InsertBlanks xs ys → InsertBlanks xs ("" :: ys)

/-- The adjacency property the preprocessor establishes: a list-item
line is preceded only by a blank line or another list-item line. -/
def good_adj (a b : String) : Prop :=
  is_list_item_line b = true → is_blank_line a = true ∨ is_list_item_line a = true

/-- The insertion condition of one preprocessing step. -/
def need_blank (acc : List String) (line : String) : Bool :=
  is_list_item_line line &&
    (match acc.getLast? with
     | some prev => !is_blank_line prev && !is_list_item_line prev
     | none => false)

end GdocUpload

namespace GdocExport

/-- The function `dropWhile` never lengthens a list. -/
theorem dropWhile_len_le (p : α → Bool) : ∀ l : List α,
    (l.dropWhile p).length ≤ l.length
  | [] => Nat.le_refl _
  | a :: t => by
    simp only [List.dropWhile]
    split
    · exact Nat.le_trans (dropWhile_len_le p t) (Nat.le_succ _)
    · exact Nat.le_refl _

/-- Strings with equal character lists are equal. -/
theorem str_ext {s t : String} (h : s.toList = t.toList) : s = t := by
  cases s
  cases t
  exact congrArg String.mk h

/-- Padding reaches exactly the column count when the row is short. -/
theorem padTo_length {n : Nat} {r : List String} (h : r.length ≤ n) :
    (padTo n r).length = n := by
  simp [padTo]
  omega

/-- Padding never truncates: the original row is recovered by `take`. -/
theorem padTo_take (n : Nat) (r : List String) :
    (padTo n r).take r.length = r := by
  simp [padTo, List.take_left]

/-- Every member of a list of naturals is bounded by the `foldr max`. -/
theorem le_foldr_max : ∀ (l : List Nat) (x : Nat), x ∈ l → x ≤ l.foldr max 0
  | [], _, h => absurd h (by simp)
  | a :: t, x, h => by
    simp only [List.mem_cons] at h
    simp only [List.foldr_cons]
    cases h with
    | inl h1 => subst h1; exact Nat.le_max_left _ _
    | inr h2 => exact Nat.le_trans (le_foldr_max t x h2) (Nat.le_max_right _ _)

/-- Every row is at most as long as the computed column count. -/
theorem row_len_le_num_cols {rows : List (List String)} {r : List String}
    (h : r ∈ rows) : r.length ≤ num_cols_of rows :=
  le_foldr_max _ _ (List.mem_map_of_mem List.length h)

/-- The function `replaceChar` distributes over append. -/
theorem replaceChar_append (c : Char) (rep : List Char) :
    ∀ (a b : List Char),
      replaceChar c rep (a ++ b) = replaceChar c rep a ++ replaceChar c rep b
  | [], _ => rfl
  | x :: xs, b => by
    simp only [replaceChar, List.cons_append, List.foldr_cons] at *
    rw [show List.foldr _ [] (xs ++ b) = replaceChar c rep (xs ++ b) from rfl,
      replaceChar_append c rep xs b]
    simp [replaceChar, List.append_assoc]

/-- The character-level specification of cell escaping: each `|` becomes
`\|`, each newline a space, all other characters are unchanged. -/
theorem escape_cell_toList : ∀ (l : List Char),
    replaceChar '\n' [' '] (replaceChar '|' ['\\', '|'] l) =
      l.foldr
        (fun c acc =>
          (if c = '|' then ['\\', '|']
           else if c = '\n' then [' '] else [c]) ++ acc)
        []
  | [] => rfl
  | c :: l => by
    have step1 : replaceChar '|' ['\\', '|'] (c :: l) =
        (if c = '|' then ['\\', '|'] else [c]) ++ replaceChar '|' ['\\', '|'] l := rfl
    rw [step1, replaceChar_append, escape_cell_toList l]
    congr 1
    by_cases h1 : c = '|'
    · subst h1
      rfl
    · rw [if_neg h1]
      by_cases h2 : c = '\n'
      · subst h2
        rfl
      · rw [if_neg h1, if_neg h2]
        simp [replaceChar, h2]

/-- The string `strRepeat "  " n` is `2*n` spaces. -/
theorem strRepeat_spaces : ∀ n : Nat,
    (strRepeat "  " n).toList = List.replicate (2 * n) ' '
  | 0 => rfl
  | n + 1 => by
    show ("  " ++ strRepeat "  " n).toList = _
    have : ("  " ++ strRepeat "  " n).toList = ' ' :: ' ' :: (strRepeat "  " n).toList := rfl
    rw [this, strRepeat_spaces n]
    rw [show 2 * (n + 1) = (2 * n) + 1 + 1 by ring]
    simp [List.replicate_succ]

end GdocExport

namespace GdocUpload

open GdocExport (pws strConcat strRepeat leadLit)

/-- A successful literal match consumes exactly the literal's length. -/
theorem leadLit_length : ∀ {p s r : List Char},
    leadLit p s = some r → r.length + p.length = s.length
  | [], _, _, h => by
    simp only [leadLit, Option.some.injEq] at h; subst h; simp
  | _ :: _, [], _, h => by simp [leadLit] at h
  | p :: ps, c :: cs, r, h => by
    simp only [leadLit] at h
    split at h
    · have := leadLit_length h
      simp only [List.length_cons]
      omega
    · exact absurd h (by simp)

/-- The remainder of a successful `did_tail` is no longer than its input. -/
theorem did_tail_rest_le {s4 rest cap : List Char}
    (h : did_tail s4 = some (rest, cap)) : rest.length ≤ s4.length := by
  unfold did_tail at h
  have hd5 : (s4.dropWhile idc).length ≤ s4.length := GdocExport.dropWhile_len_le _ _
  simp only at h
  split at h
  · exact absurd h (by simp)
  · split at h
    · rename_i hgd
      have hh : (s4.dropWhile idc).head? = some '>' := hgd.2.2
      obtain ⟨rest', heq⟩ : ∃ r', s4.dropWhile idc = '>' :: r' := by
        cases hcase : s4.dropWhile idc with
        | nil => rw [hcase] at hh; exact absurd hh (by simp)
        | cons a t =>
          rw [hcase] at hh
          simp only [List.head?_cons, Option.some.injEq] at hh
          exact ⟨t, by rw [hh]⟩
      have hre : rest = rest' := by
        rw [heq] at h
        simp only [List.tail_cons, Option.some.injEq, Prod.mk.injEq] at h
        exact h.1.symm
      subst hre
      have : rest.length + 1 = (s4.dropWhile idc).length := by rw [heq]; simp
      omega
    · split at h
      · exact absurd h (by simp)
      · rename_i r4 h4
        simp only [Option.some.injEq, Prod.mk.injEq] at h
        have hr4 : r4.length + 3 = ((s4.dropWhile idc).dropWhile pws).length := by
          have := leadLit_length h4; simpa using this
        have hd6 : ((s4.dropWhile idc).dropWhile pws).length ≤
            (s4.dropWhile idc).length := GdocExport.dropWhile_len_le _ _
        obtain ⟨h5, h6⟩ := h
        subst h5
        omega

theorem doc_id_match_rest_lt {s rest cap : List Char}
    (h : doc_id_match s = some (rest, cap)) : rest.length < s.length := by
  unfold doc_id_match at h
  split at h
  · exact absurd h (by simp)
  · rename_i s1 h1
    split at h
    · exact absurd h (by simp)
    · rename_i s3 h2
      have hs1 : s1.length + 4 = s.length := by
        have := leadLit_length h1; simpa using this
      have hd1 : (s1.dropWhile pws).length ≤ s1.length := GdocExport.dropWhile_len_le _ _
      have hs3 : s3.length + 14 = (s1.dropWhile pws).length := by
        have h14 : ("google-doc-id:".toList).length = 14 := rfl
        have := leadLit_length h2; omega
      have hd3 : (s3.dropWhile pws).length ≤ s3.length := GdocExport.dropWhile_len_le _ _
      have := did_tail_rest_le h
      omega

/-- Fuel adequacy for the scanner. -/
theorem scan_pieces_go_eq : ∀ (f : Nat) (s : List Char), s.length ≤ f →
    scan_pieces_go f s = scan_pieces s
  | 0, s, h => by
    have hs : s = [] := List.length_eq_zero.mp (Nat.le_zero.mp h)
    subst hs; rfl
  | _ + 1, [], _ => rfl
  | f + 1, c :: t, h => by
    have hgoal : scan_pieces (c :: t) = scan_pieces_go (t.length + 1) (c :: t) := by
      simp [scan_pieces]
    rw [hgoal]
    simp only [scan_pieces_go]
    cases hm : doc_id_match (c :: t) with
    | some p =>
      obtain ⟨rest, cap⟩ := p
      have hlt := doc_id_match_rest_lt hm
      simp only [List.length_cons] at hlt
      have h1 : scan_pieces_go f rest = scan_pieces rest :=
        scan_pieces_go_eq f rest (by simp at h; omega)
      have h2 : scan_pieces_go t.length rest = scan_pieces rest :=
        scan_pieces_go_eq t.length rest (by omega)
      simp [h1, h2]
    | none =>
      have h1 : scan_pieces_go f t = scan_pieces t :=
        scan_pieces_go_eq f t (by simp at h; omega)
      have h2 : scan_pieces_go t.length t = scan_pieces t :=
        scan_pieces_go_eq t.length t (Nat.le_refl _)
      simp [h1, h2]

@[simp] theorem scan_pieces_nil : scan_pieces [] = [] := rfl

/-- Scan step at a matching position. -/
theorem scan_pieces_cons_match {c : Char} {t rest cap : List Char}
    (hm : doc_id_match (c :: t) = some (rest, cap)) :
    scan_pieces (c :: t) = .inr cap :: scan_pieces rest := by
  have hlt := doc_id_match_rest_lt hm
  simp only [List.length_cons] at hlt
  show scan_pieces_go (c :: t).length (c :: t) = _
  simp only [List.length_cons, scan_pieces_go, hm]
  rw [scan_pieces_go_eq t.length rest (by omega)]

/-- Scan step at a non-matching position. -/
theorem scan_pieces_cons_none {c : Char} {t : List Char}
    (hm : doc_id_match (c :: t) = none) :
    scan_pieces (c :: t) = .inl c :: scan_pieces t := by
  show scan_pieces_go (c :: t).length (c :: t) = _
  simp only [List.length_cons, scan_pieces_go, hm]
  rfl

/-- Id characters are not whitespace. -/
theorem idc_not_pws {c : Char} (h : idc c = true) : pws c = false := by
  simp only [idc, Bool.or_eq_true, Bool.and_eq_true, decide_eq_true_eq] at h
  simp only [pws, Bool.or_eq_false_iff, decide_eq_false_iff_not]
  omega

/-- The matcher `leadLit p` succeeds on anything starting with `p`. -/
theorem leadLit_self : ∀ (p s : List Char), leadLit p (p ++ s) = some s
  | [], _ => rfl
  | c :: ps, s => by simp [leadLit, leadLit_self ps s]

/-- The function `dropWhile` distributes over an append whose boundary element fails
the predicate. -/
theorem dropWhile_append_not {p : α → Bool} {c : α} (hc : p c = false) :
    ∀ (a b : List α), (a ++ c :: b).dropWhile p = a.dropWhile p ++ c :: b
  | [], b => by simp [List.dropWhile, hc]
  | x :: xs, b => by
    simp only [List.cons_append, List.dropWhile]
    cases hx : p x
    · simp
    · simpa using dropWhile_append_not hc xs b

/-- The function `takeWhile` truncates at an append boundary failing the predicate. -/
theorem takeWhile_append_not {p : α → Bool} {c : α} (hc : p c = false) :
    ∀ (a b : List α), (a ++ c :: b).takeWhile p = a.takeWhile p
  | [], b => by simp [List.takeWhile, hc]
  | x :: xs, b => by
    simp only [List.cons_append, List.takeWhile]
    cases hx : p x
    · simp
    · simpa using takeWhile_append_not hc xs b

/-- The function `takeWhile` keeps a list all of whose elements satisfy the predicate. -/
theorem takeWhile_all {p : α → Bool} : ∀ {l : List α},
    (∀ c ∈ l, p c = true) → l.takeWhile p = l
  | [], _ => rfl
  | x :: xs, h => by
    simp only [List.takeWhile, h x (by simp)]
    simpa using takeWhile_all (fun c hc => h c (by simp [hc]))

/-- The function `dropWhile` empties a list all of whose elements satisfy the predicate. -/
theorem dropWhile_all {p : α → Bool} : ∀ {l : List α},
    (∀ c ∈ l, p c = true) → l.dropWhile p = []
  | [], _ => rfl
  | x :: xs, h => by
    simp only [List.dropWhile, h x (by simp)]
    exact dropWhile_all (fun c hc => h c (by simp [hc]))

/-- The function `dropWhile` at a head failing the predicate. -/
theorem dropWhile_cons_false {p : α → Bool} {x : α} (h : p x = false) (l : List α) :
    (x :: l).dropWhile p = x :: l := by
  simp [List.dropWhile, h]

/-- The marker text followed by `rest`, in head-normal form. -/
theorem markerL_cons (id rest : List Char) :
    ("<!-- google-doc-id: ".toList ++ (id ++ (" -->".toList ++ rest))) =
      '<' :: '!' :: '-' :: '-' :: ' ' ::
        ("google-doc-id:".toList ++ (' ' :: (id ++ (' ' :: '-' :: '-' :: '>' :: rest)))) := by
  have e1 : "<!-- google-doc-id: ".toList =
      '<' :: '!' :: '-' :: '-' :: ' ' :: ("google-doc-id:".toList ++ [' ']) := rfl
  have e2 : " -->".toList = [' ', '-', '-', '>'] := rfl
  rw [e1, e2]
  simp

/-- The pattern matches the canonical marker text at its head, for any
valid id and any continuation, consuming exactly the marker. -/
theorem doc_id_match_marker {id : List Char} (hid : valid_id id) (rest : List Char) :
    doc_id_match ("<!-- google-doc-id: ".toList ++ (id ++ (" -->".toList ++ rest))) =
      some (rest, id) := by
  obtain ⟨hne, hall⟩ := hid
  obtain ⟨d, ds, hds⟩ : ∃ d ds, id = d :: ds := by
    cases id with
    | nil => exact absurd rfl hne
    | cons d ds => exact ⟨d, ds, rfl⟩
  rw [markerL_cons]
  have h1 : leadLit ['<', '!', '-', '-']
      ('<' :: '!' :: '-' :: '-' :: ' ' ::
        ("google-doc-id:".toList ++ (' ' :: (id ++ (' ' :: '-' :: '-' :: '>' :: rest))))) =
      some (' ' ::
        ("google-doc-id:".toList ++ (' ' :: (id ++ (' ' :: '-' :: '-' :: '>' :: rest))))) := by
    simp [leadLit]
  have hgd : ∀ X : List Char, "google-doc-id:".toList ++ X =
      'g' :: ("oogle-doc-id:".toList ++ X) := fun _ => rfl
  have h2 : (' ' ::
      ("google-doc-id:".toList ++ (' ' :: (id ++ (' ' :: '-' :: '-' :: '>' :: rest))))).dropWhile pws =
      "google-doc-id:".toList ++ (' ' :: (id ++ (' ' :: '-' :: '-' :: '>' :: rest))) := by
    rw [List.dropWhile_cons]
    simp only [show pws ' ' = true from rfl, if_true]
    rw [hgd, dropWhile_cons_false (show pws 'g' = false from rfl), ← hgd]
  have h3 : leadLit "google-doc-id:".toList
      ("google-doc-id:".toList ++ (' ' :: (id ++ (' ' :: '-' :: '-' :: '>' :: rest)))) =
      some (' ' :: (id ++ (' ' :: '-' :: '-' :: '>' :: rest))) := leadLit_self _ _
  have h4 : (' ' :: (id ++ (' ' :: '-' :: '-' :: '>' :: rest))).dropWhile pws =
      id ++ (' ' :: '-' :: '-' :: '>' :: rest) := by
    rw [List.dropWhile_cons]
    simp only [show pws ' ' = true from rfl, if_true]
    rw [hds]
    simp only [List.cons_append]
    rw [dropWhile_cons_false (idc_not_pws (hall d (by simp [hds])))]
  have h5 : (id ++ (' ' :: '-' :: '-' :: '>' :: rest)).takeWhile idc = id := by
    rw [takeWhile_append_not (show idc ' ' = false from rfl)]
    exact takeWhile_all hall
  have h6 : (id ++ (' ' :: '-' :: '-' :: '>' :: rest)).dropWhile idc =
      ' ' :: '-' :: '-' :: '>' :: rest := by
    rw [dropWhile_append_not (show idc ' ' = false from rfl), dropWhile_all hall]
    rfl
  have h7 : (' ' :: '-' :: '-' :: '>' :: rest).dropWhile pws =
      '-' :: '-' :: '>' :: rest := by
    rw [List.dropWhile_cons]
    simp only [show pws ' ' = true from rfl, if_true]
    rw [dropWhile_cons_false (show pws '-' = false from rfl)]
  have h8 : leadLit ['-', '-', '>'] ('-' :: '-' :: '>' :: rest) = some rest := by
    simp [leadLit]
  have h9 : id.isEmpty = false := by rw [hds]; rfl
  have hcA : ((' ' :: '-' :: '-' :: '>' :: rest).head? == some '>') = false := rfl
  simp only [doc_id_match, h1, h2, h3, h4]
  simp only [did_tail, h5, h6, h7, h8, h9, hcA, Bool.and_false]
  simp

/-- Splitting a literal match at an append boundary whose first
character is `<`: when the literal does not contain `<`, matching
succeeds or fails identically for every continuation after the
boundary, any success consuming only pre-boundary characters. -/
theorem leadLit_split : ∀ (p ys u v : List Char), '<' ∉ p →
    (leadLit p (ys ++ '<' :: u) = none ∧ leadLit p (ys ++ '<' :: v) = none) ∨
    (∃ ys', leadLit p (ys ++ '<' :: u) = some (ys' ++ '<' :: u) ∧
      leadLit p (ys ++ '<' :: v) = some (ys' ++ '<' :: v))
  | [], ys, u, v, _ => .inr ⟨ys, rfl, rfl⟩
  | a :: ps, [], u, v, hp => by
    have ha : ¬('<' = a) := fun he => hp (by simp [he.symm])
    refine .inl ⟨?_, ?_⟩ <;> simp [leadLit, ha]
  | a :: ps, y :: ys0, u, v, hp => by
    by_cases hy : y = a
    · have hps : '<' ∉ ps := fun h => hp (by simp [h])
      rcases leadLit_split ps ys0 u v hps with ⟨h1, h2⟩ | ⟨ys', h1, h2⟩
      · exact .inl ⟨by simpa [leadLit, hy] using h1, by simpa [leadLit, hy] using h2⟩
      · exact .inr ⟨ys', by simpa [leadLit, hy] using h1, by simpa [leadLit, hy] using h2⟩
    · exact .inl ⟨by simp [leadLit, hy], by simp [leadLit, hy]⟩

/-- Splitting the leading `<!--` literal at a later `<`-boundary
(possible since `<` occurs in the literal only at its head, and at
least one pre-boundary character exists). -/
theorem leadLit_open_split (xs u v : List Char) (hxs : xs ≠ []) :
    (leadLit ['<', '!', '-', '-'] (xs ++ '<' :: u) = none ∧
      leadLit ['<', '!', '-', '-'] (xs ++ '<' :: v) = none) ∨
    (∃ ys, leadLit ['<', '!', '-', '-'] (xs ++ '<' :: u) = some (ys ++ '<' :: u) ∧
      leadLit ['<', '!', '-', '-'] (xs ++ '<' :: v) = some (ys ++ '<' :: v)) := by
  obtain ⟨x, xs0, rfl⟩ : ∃ x xs0, xs = x :: xs0 := by
    cases xs with
    | nil => exact absurd rfl hxs
    | cons x xs0 => exact ⟨x, xs0, rfl⟩
  by_cases hx : x = '<'
  · have hnp : '<' ∉ ['!', '-', '-'] := by decide
    rcases leadLit_split ['!', '-', '-'] xs0 u v hnp with ⟨h1, h2⟩ | ⟨ys', h1, h2⟩
    · exact .inl ⟨by simpa [leadLit, hx] using h1, by simpa [leadLit, hx] using h2⟩
    · exact .inr ⟨ys', by simpa [leadLit, hx] using h1, by simpa [leadLit, hx] using h2⟩
  · exact .inl ⟨by simp [leadLit, hx], by simp [leadLit, hx]⟩

/-- A successful pattern match starts with `<`. -/
theorem doc_id_match_head {c : Char} {t rest cap : List Char}
    (h : doc_id_match (c :: t) = some (rest, cap)) : c = '<' := by
  by_contra hc
  have : leadLit ['<', '!', '-', '-'] (c :: t) = none := by
    simp [leadLit, fun he => hc he]
  rw [doc_id_match, this] at h
  exact absurd h (by simp)

/-- Splitting `did_tail` at an append boundary starting with `<`: it
fails for every continuation, or succeeds for every continuation with
the same capture, consuming only pre-boundary characters. -/
theorem did_tail_split (xs4 u v : List Char) :
    (did_tail (xs4 ++ '<' :: u) = none ∧ did_tail (xs4 ++ '<' :: v) = none) ∨
    (∃ ys cap, did_tail (xs4 ++ '<' :: u) = some (ys ++ '<' :: u, cap) ∧
      did_tail (xs4 ++ '<' :: v) = some (ys ++ '<' :: v, cap)) := by
  have hpws : pws '<' = false := rfl
  have hidc : idc '<' = false := rfl
  have h5u : (xs4 ++ '<' :: u).takeWhile idc = xs4.takeWhile idc :=
    takeWhile_append_not hidc _ _
  have h5v : (xs4 ++ '<' :: v).takeWhile idc = xs4.takeWhile idc :=
    takeWhile_append_not hidc _ _
  have h6u : (xs4 ++ '<' :: u).dropWhile idc = xs4.dropWhile idc ++ '<' :: u :=
    dropWhile_append_not hidc _ _
  have h6v : (xs4 ++ '<' :: v).dropWhile idc = xs4.dropWhile idc ++ '<' :: v :=
    dropWhile_append_not hidc _ _
  simp only [did_tail, h5u, h5v, h6u, h6v]
  by_cases hre : (xs4.takeWhile idc).isEmpty = true
  · exact .inl ⟨by rw [if_pos hre], by rw [if_pos hre]⟩
  simp only [if_neg hre]
  have harr : '<' ∉ ['-', '-', '>'] := by decide
  cases hxs5c : xs4.dropWhile idc with
  | nil =>
    simp only [hxs5c, List.nil_append]
    have hCu : ¬(3 ≤ (xs4.takeWhile idc).length ∧
        (xs4.takeWhile idc).drop ((xs4.takeWhile idc).length - 2) = ['-', '-'] ∧
        ('<' :: u).head? = some '>') := by
      rintro ⟨-, -, hc⟩
      simp at hc
    have hCv : ¬(3 ≤ (xs4.takeWhile idc).length ∧
        (xs4.takeWhile idc).drop ((xs4.takeWhile idc).length - 2) = ['-', '-'] ∧
        ('<' :: v).head? = some '>') := by
      rintro ⟨-, -, hc⟩
      simp at hc
    rw [if_neg hCu, if_neg hCv, dropWhile_cons_false hpws, dropWhile_cons_false hpws]
    have hLu : leadLit ['-', '-', '>'] ('<' :: u) = none := by simp [leadLit]
    have hLv : leadLit ['-', '-', '>'] ('<' :: v) = none := by simp [leadLit]
    rw [hLu, hLv]
    exact .inl ⟨rfl, rfl⟩
  | cons y ys5 =>
    simp only [hxs5c, List.cons_append]
    by_cases hC : 3 ≤ (xs4.takeWhile idc).length ∧
        (xs4.takeWhile idc).drop ((xs4.takeWhile idc).length - 2) = ['-', '-'] ∧ y = '>'
    · have hCu : 3 ≤ (xs4.takeWhile idc).length ∧
          (xs4.takeWhile idc).drop ((xs4.takeWhile idc).length - 2) = ['-', '-'] ∧
          (y :: (ys5 ++ '<' :: u)).head? = some '>' :=
        ⟨hC.1, hC.2.1, by simp [hC.2.2]⟩
      have hCv : 3 ≤ (xs4.takeWhile idc).length ∧
          (xs4.takeWhile idc).drop ((xs4.takeWhile idc).length - 2) = ['-', '-'] ∧
          (y :: (ys5 ++ '<' :: v)).head? = some '>' :=
        ⟨hC.1, hC.2.1, by simp [hC.2.2]⟩
      rw [if_pos hCu, if_pos hCv]
      exact .inr ⟨ys5, (xs4.takeWhile idc).take ((xs4.takeWhile idc).length - 2),
        by simp, by simp⟩
    · have hCu : ¬(3 ≤ (xs4.takeWhile idc).length ∧
          (xs4.takeWhile idc).drop ((xs4.takeWhile idc).length - 2) = ['-', '-'] ∧
          (y :: (ys5 ++ '<' :: u)).head? = some '>') := by
        rintro ⟨ha, hb, hc⟩
        exact hC ⟨ha, hb, by simpa using hc⟩
      have hCv : ¬(3 ≤ (xs4.takeWhile idc).length ∧
          (xs4.takeWhile idc).drop ((xs4.takeWhile idc).length - 2) = ['-', '-'] ∧
          (y :: (ys5 ++ '<' :: v)).head? = some '>') := by
        rintro ⟨ha, hb, hc⟩
        exact hC ⟨ha, hb, by simpa using hc⟩
      rw [if_neg hCu, if_neg hCv]
      have h7u : (y :: (ys5 ++ '<' :: u)).dropWhile pws =
          (y :: ys5).dropWhile pws ++ '<' :: u := by
        have := dropWhile_append_not (p := pws) hpws (y :: ys5) u
        simpa using this
      have h7v : (y :: (ys5 ++ '<' :: v)).dropWhile pws =
          (y :: ys5).dropWhile pws ++ '<' :: v := by
        have := dropWhile_append_not (p := pws) hpws (y :: ys5) v
        simpa using this
      rw [h7u, h7v]
      rcases leadLit_split ['-', '-', '>'] ((y :: ys5).dropWhile pws) u v harr with
        ⟨h8u, h8v⟩ | ⟨xs7, h8u, h8v⟩
      · rw [h8u, h8v]
        exact .inl ⟨rfl, rfl⟩
      · rw [h8u, h8v]
        exact .inr ⟨xs7, xs4.takeWhile idc, rfl, rfl⟩

/-- Splitting a full pattern match at an append boundary starting with
`<` (at least one character before the boundary): the match fails for
every continuation, or succeeds for every continuation with the same
capture, consuming only pre-boundary characters.  A parse crossing
the boundary dies at the boundary's `<`, which is neither whitespace
nor an id character nor a character of any pending literal piece. -/
theorem doc_id_match_split (xs u v : List Char) (hxs : xs ≠ []) :
    (doc_id_match (xs ++ '<' :: u) = none ∧ doc_id_match (xs ++ '<' :: v) = none) ∨
    (∃ ys cap, doc_id_match (xs ++ '<' :: u) = some (ys ++ '<' :: u, cap) ∧
      doc_id_match (xs ++ '<' :: v) = some (ys ++ '<' :: v, cap)) := by
  have hpws : pws '<' = false := rfl
  rcases leadLit_open_split xs u v hxs with ⟨h1u, h1v⟩ | ⟨xs1, h1u, h1v⟩
  · exact .inl ⟨by simp [doc_id_match, h1u], by simp [doc_id_match, h1v]⟩
  have h2u : (xs1 ++ '<' :: u).dropWhile pws = xs1.dropWhile pws ++ '<' :: u :=
    dropWhile_append_not hpws _ _
  have h2v : (xs1 ++ '<' :: v).dropWhile pws = xs1.dropWhile pws ++ '<' :: v :=
    dropWhile_append_not hpws _ _
  have hgdi : '<' ∉ "google-doc-id:".toList := by decide
  rcases leadLit_split "google-doc-id:".toList (xs1.dropWhile pws) u v hgdi with
    ⟨h3u, h3v⟩ | ⟨xs3, h3u, h3v⟩
  · exact .inl ⟨by simp only [doc_id_match, h1u, h2u, h3u],
      by simp only [doc_id_match, h1v, h2v, h3v]⟩
  have h4u : (xs3 ++ '<' :: u).dropWhile pws = xs3.dropWhile pws ++ '<' :: u :=
    dropWhile_append_not hpws _ _
  have h4v : (xs3 ++ '<' :: v).dropWhile pws = xs3.dropWhile pws ++ '<' :: v :=
    dropWhile_append_not hpws _ _
  rcases did_tail_split (xs3.dropWhile pws) u v with ⟨h9u, h9v⟩ | ⟨ys, cap, h9u, h9v⟩
  · exact .inl ⟨by simp only [doc_id_match, h1u, h2u, h3u, h4u, h9u],
      by simp only [doc_id_match, h1v, h2v, h3v, h4v, h9v]⟩
  · exact .inr ⟨ys, cap, by simp only [doc_id_match, h1u, h2u, h3u, h4u, h9u],
      by simp only [doc_id_match, h1v, h2v, h3v, h4v, h9v]⟩

/-- A match attempt at a non-`<` character fails. -/
theorem doc_id_match_cons_ne {c : Char} (hc : c ≠ '<') (t : List Char) :
    doc_id_match (c :: t) = none := by
  cases h : doc_id_match (c :: t) with
  | none => rfl
  | some p =>
    obtain ⟨rest, cap⟩ := p
    exact absurd (doc_id_match_head h) hc

@[simp] theorem marker_sub_nil (repl : List Char) : marker_sub repl [] = [] := rfl

theorem marker_sub_cons_match {c : Char} {t rest cap : List Char} (repl : List Char)
    (hm : doc_id_match (c :: t) = some (rest, cap)) :
    marker_sub repl (c :: t) = repl ++ marker_sub repl rest := by
  simp [marker_sub, scan_pieces_cons_match hm]

theorem marker_sub_cons_none {c : Char} {t : List Char} (repl : List Char)
    (hm : doc_id_match (c :: t) = none) :
    marker_sub repl (c :: t) = c :: marker_sub repl t := by
  simp [marker_sub, scan_pieces_cons_none hm]

@[simp] theorem marker_ids_nil : marker_ids [] = [] := rfl

theorem marker_ids_cons_match {c : Char} {t rest cap : List Char}
    (hm : doc_id_match (c :: t) = some (rest, cap)) :
    marker_ids (c :: t) = cap :: marker_ids rest := by
  simp [marker_ids, scan_pieces_cons_match hm]

theorem marker_ids_cons_none {c : Char} {t : List Char}
    (hm : doc_id_match (c :: t) = none) :
    marker_ids (c :: t) = marker_ids t := by
  simp [marker_ids, scan_pieces_cons_none hm]

/-- Without any match, the substitution is the identity and no ids are
collected. -/
theorem no_marker_parts (repl : List Char) : ∀ {s : List Char},
    has_marker s = false → marker_ids s = [] ∧ marker_sub repl s = s
  | [], _ => ⟨rfl, rfl⟩
  | c :: t, h => by
    simp only [has_marker, Bool.or_eq_false_iff] at h
    obtain ⟨hm0, ht⟩ := h
    have hm : doc_id_match (c :: t) = none := by
      cases hx : doc_id_match (c :: t) with
      | none => rfl
      | some p => rw [hx] at hm0; exact absurd hm0 (by simp)
    obtain ⟨hids, hsub⟩ := no_marker_parts repl ht
    exact ⟨by rw [marker_ids_cons_none hm, hids],
      by rw [marker_sub_cons_none repl hm, hsub]⟩

/-- Replacing every marker never creates a match at a position that had
none: a parse reaching the boundary of a replacement dies at its
leading `<`. -/
theorem sub_no_new_match {repl : List Char} (q : List Char) (hrepl : repl = '<' :: q) :
    ∀ (t xs : List Char), xs ≠ [] → doc_id_match (xs ++ t) = none →
      doc_id_match (xs ++ marker_sub repl t) = none
  | [], xs, _, h => by simpa using h
  | c :: t', xs, hxs, h => by
    cases hm : doc_id_match (c :: t') with
    | some p =>
      obtain ⟨rest, cap⟩ := p
      have hc : c = '<' := doc_id_match_head hm
      subst hc
      rw [marker_sub_cons_match repl hm, hrepl]
      have hsplit := doc_id_match_split xs t' (q ++ marker_sub ('<' :: q) rest) hxs
      rcases hsplit with ⟨-, h2⟩ | ⟨ys, cap2, h1, -⟩
      · simpa [hrepl] using h2
      · rw [h1] at h
        exact absurd h (by simp)
    | none =>
      rw [marker_sub_cons_none repl hm]
      have hassoc : xs ++ c :: marker_sub repl t' = (xs ++ [c]) ++ marker_sub repl t' := by
        simp
      rw [hassoc]
      have hprev : doc_id_match ((xs ++ [c]) ++ t') = none := by
        simpa using h
      exact sub_no_new_match q hrepl t' (xs ++ [c]) (by simp) hprev
  termination_by t _ _ _ => t.length

/-- Layout of the marker text: the fixed opening text, the id, the
fixed closing text. -/
theorem marker_text_toList (d : String) :
    (marker_text d).toList =
      ("<!-- google-doc-id: ".toList ++ d.toList) ++ " -->".toList := rfl

/-- The pattern consumes exactly a leading marker, capturing its id. -/
theorem doc_id_match_marker_str (d : String) (hid : valid_id d.toList) (X : List Char) :
    doc_id_match ((marker_text d).toList ++ X) = some (X, d.toList) := by
  have hsh : (marker_text d).toList ++ X =
      "<!-- google-doc-id: ".toList ++ (d.toList ++ (" -->".toList ++ X)) := by
    rw [marker_text_toList]
    simp [List.append_assoc]
  rw [hsh]
  exact doc_id_match_marker hid X

theorem marker_toList_ne_nil (d : String) (X : List Char) :
    (marker_text d).toList ++ X ≠ [] := by
  rw [marker_text_toList]
  simp

/-- Scan step on a successful match, for a nonempty list in any form. -/
theorem scan_pieces_eq_match {s rest cap : List Char} (hs : s ≠ [])
    (hm : doc_id_match s = some (rest, cap)) :
    scan_pieces s = .inr cap :: scan_pieces rest := by
  cases s with
  | nil => exact absurd rfl hs
  | cons c t => exact scan_pieces_cons_match hm

/-- Ids collected from a leading marker. -/
theorem marker_ids_append_marker (d : String) (hid : valid_id d.toList) (X : List Char) :
    marker_ids ((marker_text d).toList ++ X) = d.toList :: marker_ids X := by
  have h := scan_pieces_eq_match (marker_toList_ne_nil d X) (doc_id_match_marker_str d hid X)
  unfold marker_ids
  rw [h]
  rfl

/-- A nonempty list whose head matches has a marker. -/
theorem has_marker_of_match {s : List Char} (hs : s ≠ [])
    (hm : (doc_id_match s).isSome = true) : has_marker s = true := by
  cases s with
  | nil => exact absurd rfl hs
  | cons c t => simp [has_marker, hm]

/-- The marker text starts with `<`. -/
theorem marker_toList_head (d : String) :
    ∃ q, (marker_text d).toList = '<' :: q := by
  rw [marker_text_toList]
  exact ⟨_, rfl⟩

/-- Substituting the marker for every match rewrites every collected id
to the new id, preserving their number. -/
theorem marker_ids_sub (d : String) (hid : valid_id d.toList) :
    ∀ s : List Char, marker_ids (marker_sub (marker_text d).toList s) =
      (marker_ids s).map (fun _ => d.toList)
  | [] => by simp
  | c :: t => by
    cases hm : doc_id_match (c :: t) with
    | some p =>
      obtain ⟨rest, cap⟩ := p
      rw [marker_sub_cons_match _ hm, marker_ids_cons_match hm,
        marker_ids_append_marker d hid _, marker_ids_sub d hid rest]
      simp
    | none =>
      rw [marker_sub_cons_none _ hm, marker_ids_cons_none hm]
      obtain ⟨q, hq⟩ := marker_toList_head d
      have hnone : doc_id_match (c :: marker_sub (marker_text d).toList t) = none := by
        have hprev : doc_id_match ([c] ++ t) = none := by simpa using hm
        have := sub_no_new_match q hq t [c] (by simp) hprev
        simpa using this
      rw [marker_ids_cons_none hnone, marker_ids_sub d hid t]
  termination_by s => s.length
  decreasing_by
    all_goals
      first
      | (have h9 := doc_id_match_rest_lt hm
         simp only [List.length_cons] at h9 ⊢
         omega)
      | (simp only [List.length_cons]; omega)

/-- Kept runs have nonempty text. -/
theorem filt_runs_ne : ∀ (elems : List (Option (String × UStyle))) (r : String × UStyle),
    r ∈ filt_runs elems → r.1 ≠ ""
  | [], r, h => absurd h (by simp [filt_runs])
  | e :: es, r, h => by
    simp only [filt_runs, List.foldr_cons] at h
    match e with
    | none =>
      try simp only at h
      exact filt_runs_ne es r h
    | some (t, st) =>
      try simp only at h
      by_cases ht : t = ""
      · rw [if_pos ht] at h
        exact filt_runs_ne es r h
      · rw [if_neg ht] at h
        cases h with
        | head => exact ht
        | tail _ h2 => exact filt_runs_ne es r h2

/-- A nonempty character list makes a nonempty string. -/
theorem mk_replicate_ne {n : Nat} (hn : 0 < n) (c : Char) :
    (⟨List.replicate n c⟩ : String) ≠ "" := by
  intro h
  have : (⟨List.replicate n c⟩ : String).toList = ("" : String).toList := by rw [h]
  simp at this
  omega

/-- Every collected run has nonempty text, and every collected
paragraph has at least one run. -/
theorem collect_paragraphs_wf : ∀ (body : List UElem) (p : UPara),
    p ∈ collect_paragraphs body → p.runs ≠ [] ∧ ∀ r ∈ p.runs, r.1 ≠ ""
  | [], p, h => absurd h (by simp [collect_paragraphs])
  | .paragraph ns b elems :: rest, p, h => by
    simp only [collect_paragraphs] at h
    rw [List.mem_append] at h
    cases h with
    | inr h2 => exact collect_paragraphs_wf rest p h2
    | inl h1 =>
      split at h1
      · exact absurd h1 (by simp)
      · rename_i hne
        simp only [List.mem_singleton] at h1
        subst h1
        refine ⟨by simpa using hne, ?_⟩
        intro r hr
        simp only [List.mem_append] at hr
        cases hr with
        | inr h3 => exact filt_runs_ne elems r h3
        | inl h3 =>
          match b with
          | none => exact absurd h3 (by simp)
          | some bu =>
            simp only at h3
            split at h3
            · simp only [List.mem_singleton] at h3
              subst h3
              exact mk_replicate_ne (by omega) '\t'
            · exact absurd h3 (by simp)
  | .table r0 c0 :: rest, p, h => by
    simp only [collect_paragraphs, List.mem_cons] at h
    cases h with
    | inl h1 =>
      subst h1
      exact ⟨by simp, by intro r hr; simp at hr; subst hr; simp⟩
    | inr h2 => exact collect_paragraphs_wf rest p h2
  | .otherElem :: rest, p, h => collect_paragraphs_wf rest p h

/-- A collected paragraph spans at least one character. -/
theorem collect_para_len_pos (body : List UElem) (p : UPara)
    (h : p ∈ collect_paragraphs body) : 1 ≤ para_len p := by
  obtain ⟨hne, hruns⟩ := collect_paragraphs_wf body p h
  match hp : p.runs with
  | [] => exact absurd hp hne
  | r :: rs =>
    have h1 : r.1 ≠ "" := hruns r (by rw [hp]; simp)
    have h2 : 1 ≤ r.1.length := by
      cases hs : r.1.length with
      | zero =>
        exact absurd (by cases r1 : r.1 with | mk l =>
          cases l with
          | nil => rfl
          | cons a b => rw [r1] at hs; simp [String.length] at hs) h1
      | succ k => omega
    simp only [para_len, hp, List.map_cons, List.sum_cons]
    omega

/-- Bounds and newline-exclusion for the per-run text-style requests. -/
theorem run_style_reqs_spec : ∀ (runs : List (String × UStyle)) (cur : Nat)
    (req : UReq), req ∈ run_style_reqs cur runs →
    ∃ s e f, req = .updTextStyle s e f ∧ cur ≤ s ∧ s < e ∧
      e ≤ cur + (runs.map (fun r => r.1.length)).sum ∧
      ∃ r ∈ runs, e = s + r.1.length - (if ends_nl r.1 then 1 else 0)
  | [], _, req, h => absurd h (by simp [run_style_reqs])
  | (text, st) :: rest, cur, req, h => by
    simp only [run_style_reqs, List.mem_append] at h
    cases h with
    | inl h1 =>
      split at h1
      · rename_i hcond1
        split at h1
        · rename_i hcond2
          split at h1
          · rename_i hnl
            split at h1
            · rename_i hend
              simp only [List.mem_singleton] at h1
              subst h1
              refine ⟨cur, _, _, rfl, Nat.le_refl _, hend, ?_,
                ⟨(text, st), by simp, ?_⟩⟩
              · simp only [List.map_cons, List.sum_cons]
                omega
              · simp only [hnl, if_true]
            · exact absurd h1 (by simp)
          · rename_i hnl
            split at h1
            · rename_i hend
              simp only [List.mem_singleton] at h1
              subst h1
              refine ⟨cur, _, _, rfl, Nat.le_refl _, hend, ?_,
                ⟨(text, st), by simp, ?_⟩⟩
              · simp only [List.map_cons, List.sum_cons]
                omega
              · simp [hnl]
            · exact absurd h1 (by simp)
        · exact absurd h1 (by simp)
      · exact absurd h1 (by simp)
    | inr h2 =>
      obtain ⟨s, e, f, heq, hs, hse, hub, r, hr, hrel⟩ :=
        run_style_reqs_spec rest (cur + text.length) req h2
      refine ⟨s, e, f, heq, by omega, hse, ?_, ⟨r, by simp [hr], hrel⟩⟩
      simp only [List.map_cons, List.sum_cons]
      omega

/-- Bounds for all stage-2 requests from cursor `cur`. -/
theorem format_requests_go_spec : ∀ (ps : List UPara) (cur : Nat),
    (∀ p ∈ ps, 1 ≤ para_len p) →
    ∀ req ∈ format_requests_go cur ps,
      (cur ≤ req.startIdx ∧ req.startIdx < req.endIdx ∧
        req.endIdx ≤ cur + (ps.map para_len).sum) ∧
      (∀ s e f, req = .updTextStyle s e f →
        ∃ p ∈ ps, ∃ r ∈ p.runs, e = s + r.1.length - (if ends_nl r.1 then 1 else 0))
  | [], _, _, req, h => absurd h (by simp [format_requests_go])
  | p :: rest, cur, hlen, req, h => by
    simp only [format_requests_go, List.mem_append] at h
    have hp1 : 1 ≤ para_len p := hlen p (by simp)
    rcases h with (h1 | h2) | h3
    · split at h1
      · simp only [List.mem_singleton] at h1
        subst h1
        refine ⟨⟨Nat.le_refl _, by simp [UReq.startIdx, UReq.endIdx]; omega, ?_⟩, ?_⟩
        · simp only [UReq.endIdx, List.map_cons, List.sum_cons]
          omega
        · intro s e f heq
          exact absurd heq (by simp)
      · exact absurd h1 (by simp)
    · obtain ⟨s, e, f, heq, hs, hse, hub, r, hr, hrel⟩ := run_style_reqs_spec p.runs cur req h2
      subst heq
      refine ⟨⟨hs, hse, ?_⟩, ?_⟩
      · simp only [UReq.endIdx, List.map_cons, List.sum_cons] at hub ⊢
        have : (p.runs.map (fun r => r.1.length)).sum = para_len p := rfl
        omega
      · intro s2 e2 f2 heq2
        simp only [UReq.updTextStyle.injEq] at heq2
        obtain ⟨rfl, rfl, rfl⟩ := heq2
        exact ⟨p, by simp, r, hr, hrel⟩
    · obtain ⟨⟨hs, hse, hub⟩, hex⟩ :=
        format_requests_go_spec rest (cur + para_len p) (fun q hq => hlen q (by simp [hq])) req h3
      refine ⟨⟨by omega, hse, ?_⟩, ?_⟩
      · simp only [List.map_cons, List.sum_cons]
        omega
      · intro s e f heq
        obtain ⟨q, hq, r, hr, hrel⟩ := hex s e f heq
        exact ⟨q, by simp [hq], r, hr, hrel⟩

/-- Bounds and shape for all stage-2b requests from cursor `cur`. -/
theorem bullet_requests_go_spec (lists : List (String × List String)) :
    ∀ (ps : List UPara) (cur : Nat), (∀ p ∈ ps, 1 ≤ para_len p) →
    ∀ req ∈ bullet_requests_go lists cur ps,
      (cur ≤ req.startIdx ∧ req.startIdx < req.endIdx ∧
        req.endIdx ≤ cur + (ps.map para_len).sum) ∧
      ∃ s e pr, req = .createBullets s e pr
  | [], _, _, req, h => absurd h (by simp [bullet_requests_go])
  | p :: rest, cur, hlen, req, h => by
    simp only [bullet_requests_go, List.mem_append] at h
    have hp1 : 1 ≤ para_len p := hlen p (by simp)
    cases h with
    | inl h1 =>
      split at h1
      · simp only [List.mem_singleton] at h1
        subst h1
        refine ⟨⟨Nat.le_refl _, by simp [UReq.startIdx, UReq.endIdx]; omega, ?_⟩,
          ⟨_, _, _, rfl⟩⟩
        simp only [UReq.endIdx, List.map_cons, List.sum_cons]
        omega
      · exact absurd h1 (by simp)
    | inr h2 =>
      obtain ⟨⟨hs, hse, hub⟩, hsh⟩ :=
        bullet_requests_go_spec lists rest (cur + para_len p)
          (fun q hq => hlen q (by simp [hq])) req h2
      refine ⟨⟨by omega, hse, ?_⟩, hsh⟩
      simp only [List.map_cons, List.sum_cons]
      omega

/-- Length of `''.join`. -/
theorem strConcat_length_aux : ∀ (l : List String) (a : String),
    (l.foldl (· ++ ·) a).length = a.length + (l.map String.length).sum
  | [], a => by simp
  | x :: xs, a => by
    simp only [List.foldl_cons, List.map_cons, List.sum_cons]
    rw [strConcat_length_aux xs (a ++ x)]
    simp [String.length_append]
    omega

theorem strConcat_length (l : List String) :
    (strConcat l).length = (l.map String.length).sum := by
  simpa using strConcat_length_aux l ""

/-- The stage-1 text length is the sum of the paragraph spans. -/
theorem all_text_length (ps : List UPara) :
    (all_text ps).length = (ps.map para_len).sum := by
  unfold all_text
  rw [strConcat_length, List.map_map]
  have hfun : (String.length ∘ fun p : UPara => strConcat (List.map (fun x => x.1) p.runs)) =
      para_len := by
    funext p
    show (strConcat (List.map (fun x => x.1) p.runs)).length = para_len p
    rw [strConcat_length, List.map_map]
    rfl
  rw [hfun]

theorem InsertBlanks.snoc_keep (x : String) :
    ∀ {xs ys : List String}, InsertBlanks xs ys →
      InsertBlanks (xs ++ [x]) (ys ++ [x])
  | _, _, .nil => .keep x .nil
  | _, _, .keep y h => .keep y (h.snoc_keep x)
  | _, _, .pad h => .pad (h.snoc_keep x)

theorem InsertBlanks.snoc_pad :
    ∀ {xs ys : List String}, InsertBlanks xs ys → InsertBlanks xs (ys ++ [""])
  | _, _, .nil => .pad .nil
  | _, _, .keep y h => .keep y h.snoc_pad
  | _, _, .pad h => .pad h.snoc_pad

theorem is_list_item_line_empty : is_list_item_line "" = false := rfl

theorem is_blank_line_empty : is_blank_line "" = true := rfl

theorem preprocess_go_eq (acc : List String) (line : String) (rest : List String) :
    preprocess_go acc (line :: rest) =
      preprocess_go ((if need_blank acc line then acc ++ [""] else acc) ++ [line]) rest := rfl

/-- One step of the accumulator preserves the adjacency chain. -/
theorem step_chain (acc : List String) (line : String)
    (h : List.Chain' good_adj acc) :
    List.Chain' good_adj ((if need_blank acc line then acc ++ [""] else acc) ++ [line]) := by
  by_cases hc : need_blank acc line = true
  · rw [if_pos hc]
    have hmid : List.Chain' good_adj (acc ++ [""]) := by
      rw [List.chain'_append]
      refine ⟨h, List.chain'_singleton _, ?_⟩
      intro x hx y hy
      simp only [List.head?_cons, Option.mem_def, Option.some.injEq] at hy
      subst hy
      intro habs
      rw [is_list_item_line_empty] at habs
      exact absurd habs (by simp)
    rw [List.append_assoc]
    rw [List.chain'_append]
    refine ⟨h, ?_, ?_⟩
    · rw [List.singleton_append, List.chain'_cons]
      exact ⟨fun _ => .inl is_blank_line_empty, List.chain'_singleton _⟩
    · intro x hx y hy
      simp only [List.singleton_append, List.head?_cons,
        Option.mem_def, Option.some.injEq] at hy
      subst hy
      intro habs
      rw [is_list_item_line_empty] at habs
      exact absurd habs (by simp)
  · rw [if_neg hc]
    rw [List.chain'_append]
    refine ⟨h, List.chain'_singleton _, ?_⟩
    intro x hx y hy
    simp only [List.head?_cons, Option.mem_def, Option.some.injEq] at hy
    subst hy
    intro hlist
    have hx2 : acc.getLast? = some x := hx
    cases hb : is_blank_line x with
    | true => exact .inl rfl
    | false =>
      cases hl : is_list_item_line x with
      | true => exact .inr rfl
      | false =>
        exfalso
        apply hc
        simp only [need_blank, hx2]
        simp [hlist, hb, hl]

/-- The preprocessing loop preserves the adjacency chain. -/
theorem preprocess_go_chain : ∀ (lines acc : List String),
    List.Chain' good_adj acc → List.Chain' good_adj (preprocess_go acc lines)
  | [], _, h => h
  | line :: rest, acc, h => by
    rw [preprocess_go_eq]
    exact preprocess_go_chain rest _ (step_chain acc line h)

/-- The preprocessing loop only inserts blank lines. -/
theorem preprocess_go_insert : ∀ (lines acc pre : List String),
    InsertBlanks pre acc → InsertBlanks (pre ++ lines) (preprocess_go acc lines)
  | [], acc, pre, h => by simpa using h
  | line :: rest, acc, pre, h => by
    have h2 : InsertBlanks (pre ++ [line])
        ((if need_blank acc line then acc ++ [""] else acc) ++ [line]) := by
      by_cases hc : need_blank acc line = true
      · rw [if_pos hc]
        exact (h.snoc_pad).snoc_keep line
      · rw [if_neg hc]
        exact h.snoc_keep line
    have h3 := preprocess_go_insert rest _ (pre ++ [line]) h2
    rw [preprocess_go_eq]
    simpa using h3

/-- A text with a marker yields at least one scan id. -/
theorem marker_ids_ne_of_has : ∀ s : List Char,
    has_marker s = true → marker_ids s ≠ []
  | [], h => by simp [has_marker] at h
  | c :: t, h => by
    cases hm : doc_id_match (c :: t) with
    | some p =>
      obtain ⟨rest, cap⟩ := p
      rw [marker_ids_cons_match hm]
      simp
    | none =>
      rw [marker_ids_cons_none hm]
      have ht : has_marker t = true := by
        simp only [has_marker, hm] at h
        simpa using h
      exact marker_ids_ne_of_has t ht

/-- Mapping a constant function is replication. -/
theorem map_const_rep : ∀ (l : List α) (b : β),
    l.map (fun _ => b) = List.replicate l.length b := by
  intro l b
  induction l with
  | nil => rfl
  | cons x xs ih => simp [ih, List.replicate_succ]

end GdocUpload

namespace GdocExport

/-- C1 (counterexample): the end-to-end conversion of the one-tab
document (H1 `Notes`, bold+italic `hi`, empty 2-by-2 table) does not
produce the claimed markdown with single-space empty cells
`"| | |"`: between the `'| '` and `' |'` paddings an empty cell leaves
two spaces. -/
theorem c1_render_counterexample :
    convert_document_to_markdown c1_doc false false ≠
      [("", "# Notes\n***hi***\n| | |\n| --- | --- |\n| | |\n\n")] := by
  decide

/-- C1 (amended): the conversion returns the single markdown string
with empty cells rendered as empty strings between the pipe paddings,
i.e. `"|  |  |"` rows (two spaces), not `"| | |"`. -/
theorem c1_render_actual :
    convert_document_to_markdown c1_doc false false =
      [("", "# Notes\n***hi***\n|  |  |\n| --- | --- |\n|  |  |\n\n")] := by
  decide

/-- C2 (counterexample): a bulleted paragraph `item` at nestingLevel 1
does not render as `"  - item\n"`; it renders as `"    - item\n"`
(indent of two spaces per level plus two spaces before the marker). -/
theorem c2_bullet_counterexample :
    convert_paragraph_to_markdown (bullet_item 1) ≠ "  - item\n" ∧
    convert_paragraph_to_markdown (bullet_item 1) = "    - item\n" := by
  constructor <;> decide

/-- C2 (amended): nestingLevel 0 renders as `"- item\n"`; nestingLevel
`n+1` renders as `2*(n+1)` spaces of indentation followed by
`"  - item\n"` — the marker's extra indent step is depth-independent,
but the indentation itself still grows by two spaces per level (so
level 1 gives `"    - item\n"` and level 2 gives `"      - item\n"`,
not `"  - item\n"`). -/
theorem c2_bullet_amended :
    convert_paragraph_to_markdown (bullet_item 0) = "- item\n" ∧
    (∀ n : Nat, convert_paragraph_to_markdown (bullet_item (n + 1)) =
      (⟨List.replicate (2 * (n + 1)) ' '⟩ : String) ++ "  - item\n") ∧
    convert_paragraph_to_markdown (bullet_item 1) = "    - item\n" ∧
    convert_paragraph_to_markdown (bullet_item 2) = "      - item\n" := by
  refine ⟨by decide, ?_, by decide, by decide⟩
  intro n
  have h0 : convert_paragraph_to_markdown (bullet_item (n + 1)) =
      strRepeat "  " (n + 1) ++ "  - " ++ "item" ++ "\n" := rfl
  rw [h0]
  apply str_ext
  have h1 : (strRepeat "  " (n + 1) ++ "  - " ++ "item" ++ "\n").toList =
      (strRepeat "  " (n + 1)).toList ++ ("  - ".toList ++ ("item".toList ++ "\n".toList)) := by
    simp [List.append_assoc]
  rw [h1, strRepeat_spaces]
  have h2 : ((⟨List.replicate (2 * (n + 1)) ' '⟩ : String) ++ "  - item\n").toList =
      List.replicate (2 * (n + 1)) ' ' ++ "  - item\n".toList := rfl
  rw [h2]
  congr 1

/-- C3 (code evaluation at the failing input): in by-heading split mode
with two content-bearing tabs, the tab-title seeding loop runs before
any element is processed (its flush branch is dead code), so no section
is flushed when the scan moves from tab `T1` to tab `T2`: the result is
a single section carrying the last tab's title and both tabs' content,
instead of one section per tab. -/
theorem c3_tab_flush_behavior :
    convert_document_to_markdown c3_doc true false = [("T2", "x1\nx2\n")] := by
  decide

/-- C4: a HEADING_1 paragraph always starts a new section — the
accumulated section is flushed (if any fragments were accumulated)
under its current title with default `Introduction`, and the new title
is the heading's text with bold/italic markers stripped, defaulting to
`Untitled Section` — and on the input
`[H1 "Intro text", H1 "A", para "x", H1 "B", para "y"]` with a single
tab the result is exactly the sections `Intro text`, `A`, `B`, with no
`Introduction` section. -/
theorem c4_heading_sections :
    (∀ (st : SplitState) (p : Para), p.namedStyleType = "HEADING_1" →
      (process_section_element st (.paragraph p)).sections =
        (if st.cur.isEmpty then st.sections
         else st.sections ++ [(pyOr st.curTitle "Introduction", strConcat st.cur)]) ∧
      (process_section_element st (.paragraph p)).curTitle =
        some (heading_section_title p) ∧
      (process_section_element st (.paragraph p)).cur =
        [convert_paragraph_to_markdown (.paragraph p)]) ∧
    convert_document_to_markdown c4_doc true false =
      [("Intro text", "# Intro text\n"), ("A", "# A\nx\n"), ("B", "# B\ny\n")] := by
  constructor
  · intro st p hp
    simp [process_section_element, hp]
  · decide

/-- C4 witness: the flush equations applied to the concrete state
reached just before the heading `B` of the example document, plus the
concrete section list. -/
theorem c4_heading_sections_witness :
    (process_section_element
        { sections := [("Intro text", "# Intro text\n")], cur := ["# A\n", "x\n"],
          curTitle := some "A", seenFlag := true }
        (h1_para "B")).sections =
      [("Intro text", "# Intro text\n"), ("A", "# A\nx\n")] ∧
    convert_document_to_markdown c4_doc true false =
      [("Intro text", "# Intro text\n"), ("A", "# A\nx\n"), ("B", "# B\ny\n")] := by
  constructor
  · have h := (c4_heading_sections.1
      { sections := [("Intro text", "# Intro text\n")], cur := ["# A\n", "x\n"],
        curTitle := some "A", seenFlag := true }
      { namedStyleType := "HEADING_1", elements := [PElem.textRun "B" {}] } rfl).1
    rw [show h1_para "B" =
      SElem.paragraph { namedStyleType := "HEADING_1", elements := [PElem.textRun "B" {}] }
      from rfl]
    rw [h]
    decide
  · exact c4_heading_sections.2

/-- C5: run rendering is a deterministic composition in a fixed order —
emphasis (bold+italic, bold, italic), then underline, then the link
wrapper outermost — and a bold run `text` with link `u` renders as
`[**text**](u)`. -/
theorem c5_run_formatting :
    (∀ (t : String) (st : TextStyle),
      format_run t st =
        spec_link_wrap st.link (spec_underline_wrap st.underline
          (spec_emphasis st.bold st.italic t))) ∧
    format_run "text" { bold := true, link := some "u" } = "[**text**](u)" := by
  exact ⟨fun t st => rfl, by decide⟩

/-- C6: table rendering pads every row of the extracted grid with empty
cells up to the maximum row length and never truncates; cell escaping
turns every `|` into `\|` and every newline into a single space
(characterwise); and a table with zero rows renders to the empty
string. -/
theorem c6_table_rendering :
    (∀ (rows : List (List (List SElem))) (r : List String), r ∈ table_grid rows →
      (padTo (num_cols_of (table_grid rows)) r).length = num_cols_of (table_grid rows) ∧
      (padTo (num_cols_of (table_grid rows)) r).take r.length = r) ∧
    (∀ s : String, (escape_cell s).toList =
      s.toList.foldr
        (fun c acc =>
          (if c = '|' then ['\\', '|']
           else if c = '\n' then [' '] else [c]) ++ acc)
        []) ∧
    escape_cell "a|b" = "a\\|b" ∧
    convert_table_to_markdown (.table []) = "" := by
  refine ⟨?_, ?_, by decide, rfl⟩
  · intro rows r hr
    exact ⟨padTo_length (row_len_le_num_cols hr), padTo_take _ _⟩
  · intro s
    exact escape_cell_toList s.toList

/-- C6 witness: padding a 1-cell row of a 2-column grid to length 2,
and escaping a concrete newline-bearing cell. -/
theorem c6_table_rendering_witness :
    (padTo (num_cols_of (table_grid [[empty_cell], [empty_cell, empty_cell]])) [""]).length =
      num_cols_of (table_grid [[empty_cell], [empty_cell, empty_cell]]) ∧
    (escape_cell "a\nb").toList = "a b".toList := by
  constructor
  · exact (c6_table_rendering.1 [[empty_cell], [empty_cell, empty_cell]] [""] (by decide)).1
  · have h := c6_table_rendering.2.1 "a\nb"
    rw [h]
    decide

end GdocExport

namespace GdocUpload

open GdocExport (pws strConcat strRepeat leadLit)

/-- C7: every `updateParagraphStyle`, `updateTextStyle` and
`createParagraphBullets` request emitted before table replay has a
range with `1 ≤ startIndex < endIndex ≤ 1 + length of the stage-1 bulk
text`, and every text-style range ends at its run's span minus the
run's trailing newline when present. -/
theorem c7_style_ranges_valid :
    ∀ (body : List UElem) (lists : List (String × List String)) (req : UReq),
      req ∈ pre_table_requests lists body →
      (1 ≤ req.startIdx ∧ req.startIdx < req.endIdx ∧
        req.endIdx ≤ 1 + (all_text (collect_paragraphs body)).length) ∧
      (∀ s e f, req = UReq.updTextStyle s e f →
        ∃ p ∈ collect_paragraphs body, ∃ r ∈ p.runs,
          e = s + r.1.length - (if ends_nl r.1 then 1 else 0)) := by
  intro body lists req h
  rw [pre_table_requests, List.mem_append] at h
  have hlen : ∀ p ∈ collect_paragraphs body, 1 ≤ para_len p :=
    fun p hp => collect_para_len_pos body p hp
  rw [all_text_length]
  cases h with
  | inl h1 =>
    obtain ⟨⟨hs, hse, hub⟩, hex⟩ :=
      format_requests_go_spec (collect_paragraphs body) 1 hlen req h1
    exact ⟨⟨hs, hse, by omega⟩, hex⟩
  | inr h2 =>
    obtain ⟨⟨hs, hse, hub⟩, s0, e0, pr0, hshape⟩ :=
      bullet_requests_go_spec lists (collect_paragraphs body) 1 hlen req h2
    refine ⟨⟨hs, hse, by omega⟩, ?_⟩
    intro s e f heq
    rw [hshape] at heq
    exact absurd heq (by simp)

/-- C7 witness: the bold-run text-style request of a one-paragraph body
(`HEADING_1`, single run `"Hi\n"`) satisfies the bounds. -/
theorem c7_style_ranges_valid_witness :
    1 ≤ UReq.startIdx (UReq.updTextStyle 1 3 ["bold"]) ∧
    UReq.startIdx (UReq.updTextStyle 1 3 ["bold"]) <
      UReq.endIdx (UReq.updTextStyle 1 3 ["bold"]) ∧
    UReq.endIdx (UReq.updTextStyle 1 3 ["bold"]) ≤
      1 + (all_text (collect_paragraphs
        [UElem.paragraph "HEADING_1" none [some ("Hi\n", { bold := some true })]])).length := by
  exact (c7_style_ranges_valid
    [UElem.paragraph "HEADING_1" none [some ("Hi\n", { bold := some true })]] []
    (UReq.updTextStyle 1 3 ["bold"]) (by decide)).1

/-- C9: on a rate-limit message the batch is retried exactly once after
the fixed 60s cooldown and a failure of the retry (rate limit or not)
propagates; any other error propagates immediately with no retry; an
error from a batch aborts the loop; and the style applicator runs the
30-sized chunks of its requests through this loop. -/
theorem c9_rate_limit_retry :
    (∀ (α : Type) (oracle : Nat → Option String) (n : Nat) (b : List α),
      (∀ e, oracle n = some e → is_rate_limit_msg e = true →
        exec_batch oracle n b =
          ((match oracle (n + 1) with
            | none => Except.ok ()
            | some e2 => Except.error e2), n + 2,
            [BatchEv.attempt b, BatchEv.sleep 600, BatchEv.attempt b])) ∧
      (∀ e, oracle n = some e → is_rate_limit_msg e = false →
        exec_batch oracle n b = (Except.error e, n + 1, [BatchEv.attempt b])) ∧
      (∀ (e : String) (bs : List (List α)), (exec_batch oracle n b).1 = Except.error e →
        run_batches oracle n (b :: bs) = Except.error e)) ∧
    (∀ (α : Type) (oracle : Nat → Option String) (reqs : List α),
      apply_style_batches oracle reqs = run_batches oracle 0 (chunks 30 reqs)) := by
  refine ⟨?_, fun _ _ _ => rfl⟩
  intro α oracle n b
  refine ⟨?_, ?_, ?_⟩
  · intro e he hrl
    cases h2 : oracle (n + 1) <;> simp [exec_batch, he, hrl, h2]
  · intro e he hrl
    simp [exec_batch, he, hrl]
  · intro e bs h
    have hx : exec_batch oracle n b = (Except.error e, (exec_batch oracle n b).2) := by
      rw [← h]
    rw [run_batches, hx]

/-- C9 witness: a first call answering `HTTP 429` and a second call
answering `boom` yields one retry after the cooldown, the retry's error
propagating. -/
theorem c9_rate_limit_retry_witness :
    exec_batch (fun k => if k = 0 then some "HTTP 429" else some "boom") 0 [7] =
      (Except.error "boom", 2,
        [BatchEv.attempt [7], BatchEv.sleep 600, BatchEv.attempt [7]]) := by
  have h := (c9_rate_limit_retry.1 Nat
    (fun k => if k = 0 then some "HTTP 429" else some "boom") 0 [7]).1 "HTTP 429" rfl
    (by decide)
  rw [h]
  rfl

/-- C10: the preprocessed markdown is the newline-join of the processed
lines; in the processed lines every list-item line is the first line or
is preceded by a blank or list-item line; and the processed lines are
the input lines, in order, with only blank lines inserted. -/
theorem c10_list_preprocess :
    ∀ content : String,
      preprocess_markdown_for_lists content =
        String.intercalate "\n" (preprocess_lines content) ∧
      List.Chain' good_adj (preprocess_lines content) ∧
      InsertBlanks (split_lines content) (preprocess_lines content) := by
  intro content
  refine ⟨rfl, ?_, ?_⟩
  · exact preprocess_go_chain (split_lines content) [] List.chain'_nil
  · have h := preprocess_go_insert (split_lines content) [] [] .nil
    simpa using h

/-- C8 (counterexample): `DOC_ID_PATTERN.sub` replaces every
occurrence, so a file that already contains two marker comments still
contains two after two saves — not exactly one as claimed. -/
theorem c8_save_doc_id_counterexample :
    count_markers ((save_doc_id_to_markdown "idtwo" (save_doc_id_to_markdown "idone"
      "<!-- google-doc-id: aaa --><!-- google-doc-id: bbb -->")).toList) = 2 ∧
    count_markers ((save_doc_id_to_markdown "idtwo" (save_doc_id_to_markdown "idone"
      "<!-- google-doc-id: aaa --><!-- google-doc-id: bbb -->")).toList) ≠ 1 := by
  constructor <;> decide

/-- C8 (amended): after two saves every marker occurrence carries the
second id, and the number of occurrences is `max 1 k` where `k` is the
original occurrence count — so the file ends with exactly one marker
precisely when it started with at most one; a save rewrites prior
occurrences in place rather than duplicating them, but rewrites all of
them. -/
theorem c8_save_doc_id_amended :
    ∀ (content id1 id2 : String), valid_id id1.toList → valid_id id2.toList →
      marker_ids ((save_doc_id_to_markdown id2 (save_doc_id_to_markdown id1 content)).toList) =
        List.replicate (max 1 (count_markers content.toList)) id2.toList ∧
      count_markers ((save_doc_id_to_markdown id2 (save_doc_id_to_markdown id1 content)).toList) =
        max 1 (count_markers content.toList) := by
  intro content id1 id2 h1 h2
  by_cases hb : has_marker content.toList = true
  · have hids_ne : marker_ids content.toList ≠ [] := marker_ids_ne_of_has _ hb
    have hS1 : (save_doc_id_to_markdown id1 content).toList =
        marker_sub (marker_text id1).toList content.toList := by
      rw [save_doc_id_to_markdown, if_pos hb]
      rfl
    have hids1 : marker_ids ((save_doc_id_to_markdown id1 content).toList) =
        (marker_ids content.toList).map (fun _ => id1.toList) := by
      rw [hS1]
      exact marker_ids_sub id1 h1 content.toList
    have hne1 : marker_ids ((save_doc_id_to_markdown id1 content).toList) ≠ [] := by
      rw [hids1]
      simpa using hids_ne
    have hb1 : has_marker ((save_doc_id_to_markdown id1 content).toList) = true := by
      cases hx : has_marker ((save_doc_id_to_markdown id1 content).toList) with
      | true => rfl
      | false => exact absurd (no_marker_parts ([] : List Char) hx).1 hne1
    have hS2 : (save_doc_id_to_markdown id2 (save_doc_id_to_markdown id1 content)).toList =
        marker_sub (marker_text id2).toList
          ((save_doc_id_to_markdown id1 content).toList) := by
      rw [save_doc_id_to_markdown, if_pos hb1]
      rfl
    have hlen_ne : (marker_ids content.toList).length ≠ 0 := by
      intro h0
      exact hids_ne (List.length_eq_zero.mp h0)
    have hmax : max 1 (count_markers content.toList) =
        (marker_ids content.toList).length := by
      unfold count_markers
      omega
    constructor
    · rw [hS2, marker_ids_sub id2 h2 _, hids1, List.map_map]
      rw [show ((fun _ => id2.toList) ∘ (fun _ : List Char => id1.toList)) =
        (fun _ : List Char => id2.toList) from rfl]
      rw [map_const_rep, hmax]
    · rw [hS2]
      unfold count_markers
      rw [marker_ids_sub id2 h2 _, hids1, List.map_map]
      simp only [List.length_map]
      omega
  · have hbf : has_marker content.toList = false := by
      simpa using hb
    have hids0 : marker_ids content.toList = [] := (no_marker_parts ([] : List Char) hbf).1
    have hsave1 : save_doc_id_to_markdown id1 content =
        marker_text id1 ++ "\n\n" ++ content := by
      rw [save_doc_id_to_markdown, if_neg (by rw [hbf]; simp)]
    have hS1L : (save_doc_id_to_markdown id1 content).toList =
        (marker_text id1).toList ++ ('\n' :: '\n' :: content.toList) := by
      rw [hsave1]
      have e1 : ((marker_text id1 ++ "\n\n") ++ content).toList =
          ((marker_text id1).toList ++ "\n\n".toList) ++ content.toList := rfl
      rw [e1]
      simp [List.append_assoc]
    have hn1 : doc_id_match ('\n' :: '\n' :: content.toList) = none :=
      doc_id_match_cons_ne (by decide) _
    have hn2 : doc_id_match ('\n' :: content.toList) = none :=
      doc_id_match_cons_ne (by decide) _
    have hids1 : marker_ids ((save_doc_id_to_markdown id1 content).toList) =
        [id1.toList] := by
      rw [hS1L, marker_ids_append_marker id1 h1,
        marker_ids_cons_none hn1, marker_ids_cons_none hn2, hids0]
    have hb1 : has_marker ((save_doc_id_to_markdown id1 content).toList) = true := by
      rw [hS1L]
      exact has_marker_of_match (marker_toList_ne_nil id1 _)
        (by rw [doc_id_match_marker_str id1 h1]; rfl)
    have hS2 : (save_doc_id_to_markdown id2 (save_doc_id_to_markdown id1 content)).toList =
        marker_sub (marker_text id2).toList
          ((save_doc_id_to_markdown id1 content).toList) := by
      rw [save_doc_id_to_markdown, if_pos hb1]
      rfl
    constructor
    · rw [hS2, marker_ids_sub id2 h2 _, hids1]
      unfold count_markers
      rw [hids0]
      rfl
    · rw [hS2]
      unfold count_markers
      rw [marker_ids_sub id2 h2 _, hids1, hids0]
      rfl

/-- C8 witness: two saves on a marker-free file leave exactly one
marker, carrying the second id. -/
theorem c8_save_doc_id_amended_witness :
    marker_ids ((save_doc_id_to_markdown "xyz" (save_doc_id_to_markdown "abc"
        "hello")).toList) =
      List.replicate (max 1 (count_markers "hello".toList)) "xyz".toList := by
  exact (c8_save_doc_id_amended "hello" "abc" "xyz"
    (by unfold valid_id; exact ⟨by simp, by decide⟩)
    (by unfold valid_id; exact ⟨by simp, by decide⟩)).1

end GdocUpload
